/-
  Verification development for the `simple-email-parse` repository.

  The repository normalizes a webmail HTML document into a nested
  quote structure, extracts (header-text, body-text) records, parses
  headers into structured contact/timestamp data and reconciles the
  timeline.  This file gives a shallow embedding of the relevant
  Python code (src/simple_email_parser/{header_adapters,html_processor,
  json_processor}.py) and proves or refutes the specification claims
  about it.

  Conventions of the embedding:
  * Python strings are Lean `String`s / `List Char`; indices count
    code points, as in Python.
  * Python `re` searches are embedded by a small backtracking matcher
    (`RE` below) whose quantifiers range over single character
    classes — every pattern in the source has this shape — so Python's
    leftmost / greedy / lazy match semantics are reproduced exactly.
  * Python `datetime.datetime` values are embedded as a clock reading
    in seconds (`clock`, a linear count of seconds with its calendar
    date given by `clock / 86400`) together with an optional UTC
    offset in seconds (`tz`).  All arithmetic performed by the code
    (`-`, `+ timedelta`, `astimezone`) is linear-time arithmetic, so
    this representation is faithful at second resolution.
  * Code that can raise a Python exception is embedded in
    `Except PyErr`.
-/
import Mathlib

namespace EmailParse

/-! ## Character classes and elementary string operations -/

/-- Python `str.strip()` / `\s` whitespace, restricted to the characters
that occur in this code base (ASCII whitespace and NBSP). -/
def isPySpace (c : Char) : Bool :=
  c = ' ' || c = '\t' || c = '\n' || c = '\r' ||
  c = '\x0b' || c = '\x0c' || c = '\xa0'

/-- Cyrillic letter range (U+0400–U+04FF), used by `\w` and lowercasing. -/
def isCyrillic (c : Char) : Bool :=
  0x400 ≤ c.toNat && c.toNat ≤ 0x4ff

/-- Python `\w` (Unicode word character) restricted to the alphabets the
source's patterns and inputs use: ASCII alphanumerics, underscore and
Cyrillic letters. -/
def isPyWord (c : Char) : Bool :=
  c.isAlpha || c.isDigit || c = '_' || isCyrillic c

/-- Python `str.lower()` on the alphabets in use (ASCII and Cyrillic;
`Ё` maps to `ё`). -/
def pyLowerChar (c : Char) : Char :=
  if 'A' ≤ c && c ≤ 'Z' then Char.ofNat (c.toNat + 32)
  else if 0x410 ≤ c.toNat && c.toNat ≤ 0x42f then Char.ofNat (c.toNat + 32)
  else if c.toNat = 0x401 then Char.ofNat 0x451
  else c

def pyLower (s : List Char) : List Char := s.map pyLowerChar

/-- Drop leading characters satisfying `p`. -/
def dropWhileL (p : Char → Bool) (s : List Char) : List Char := s.dropWhile p

/-- Python `str.strip()` on a character list. -/
def pyStripL (s : List Char) : List Char :=
  ((s.dropWhile isPySpace).reverse.dropWhile isPySpace).reverse

/-- Python `str.strip(chars)` for an explicit character set. -/
def pyStripSetL (p : Char → Bool) (s : List Char) : List Char :=
  ((s.dropWhile p).reverse.dropWhile p).reverse

def pyStrip (s : String) : String := ⟨pyStripL s.data⟩

/-- Decidable substring containment (Python's `needle in haystack`). -/
def isSubList (needle : List Char) : List Char → Bool
  | [] => needle.isEmpty
  | c :: rest => (needle.isPrefixOf (c :: rest)) || isSubList needle rest

/-- Python `haystack.endswith(":")`-style last-character test. -/
def endsWithChar (c : Char) (s : List Char) : Bool :=
  match s.getLast? with
  | some d => d = c
  | none => false

/-- Number of occurrences of a character (Python `str.count` for a
single-character needle). -/
def countChar (c : Char) (s : List Char) : Nat :=
  s.countP (fun d => d = c)

/-! ## A small regular-expression engine

Every regex in the source quantifies only single-character classes
(`\d{1,2}`, `\s*`, `.+?`, `-+`, …), so a complete backtracking matcher
with Python's priority order (alternatives left to right, greedy
longest-first, lazy shortest-first) is definable by structural
recursion on the pattern.  `mrun` enumerates the candidate matches of a
pattern in backtracking priority order; `reSearch` takes the leftmost
position with a match and the first match there, exactly like
`re.search`. -/

/-- Patterns.  Quantifiers (`repCls`, `starCls`, `plusCls`, `lazyPlusCls`)
apply to a character class only, mirroring the shape of every regex in
the source.  `grp` records a capture group. -/
inductive RE where
  | eps : RE
  | cls (p : Char → Bool) : RE
  | lit (s : List Char) : RE
  | litCI (s : List Char) : RE
  | seq (a b : RE) : RE
  | alt (a b : RE) : RE
  | optG (a : RE) : RE
  | starCls (p : Char → Bool) : RE
  | plusCls (p : Char → Bool) : RE
  | lazyPlusCls (p : Char → Bool) : RE
  | repCls (p : Char → Bool) (lo hi : Nat) : RE
  | grp (n : Nat) (a : RE) : RE
  | wordB : RE
  | eos : RE
  | lookahead (a : RE) : RE

/-- A match state: characters captured so far per group, the previous
character (for word boundaries) and the remaining input. -/
structure MState where
  caps : List (Nat × List Char)
  prev : Option Char
  rest : List Char

/-- All ways of consuming exactly `k` characters of class `p`. -/
def takeCls (p : Char → Bool) : Nat → Option Char → List Char →
    Option (Option Char × List Char)
  | 0, pv, rest => some (pv, rest)
  | k + 1, _, c :: rest => if p c then takeCls p k (some c) rest else none
  | _ + 1, _, [] => none

/-- Candidate consumption counts for a class quantifier, in priority
order: greedy counts descend from the longest run, lazy counts ascend. -/
def clsCounts (p : Char → Bool) (lo hi : Nat) (lazy_ : Bool)
    (rest : List Char) : List Nat :=
  let m := min hi (rest.takeWhile p).length
  if m < lo then []
  else if lazy_ then (List.range (m - lo + 1)).map (lo + ·)
  else (List.range (m - lo + 1)).map (m - ·)

/-- Case-sensitive literal match. -/
def litStep (s : List Char) (st : MState) : Option MState :=
  if s.isPrefixOf st.rest then
    some { st with prev := (s.getLast?).orElse (fun _ => st.prev),
                   rest := st.rest.drop s.length }
  else none

/-- Case-insensitive literal match (`re.IGNORECASE`). -/
def litCIStep (s : List Char) (st : MState) : Option MState :=
  let pre := st.rest.take s.length
  if pre.length = s.length && pyLower pre = pyLower s then
    some { st with prev := (pre.getLast?).orElse (fun _ => st.prev),
                   rest := st.rest.drop s.length }
  else none

/-- Is the word-boundary condition satisfied between `prev` and the head
of `rest`? -/
def atWordB (st : MState) : Bool :=
  let w1 := match st.prev with | some c => isPyWord c | none => false
  let w2 := match st.rest.head? with | some c => isPyWord c | none => false
  w1 != w2

/-- Is the `$` anchor satisfied (end of input, or just before a final
newline)? -/
def atEos (st : MState) : Bool :=
  st.rest.isEmpty || st.rest = ['\n']

/-- Run a pattern from a state, producing all resulting states in
backtracking priority order. -/
def mrun : RE → MState → List MState
  | .eps, st => [st]
  | .cls p, st =>
    match st.rest with
    | c :: rest => if p c then [{ st with prev := some c, rest := rest }] else []
    | [] => []
  | .lit s, st => (litStep s st).toList
  | .litCI s, st => (litCIStep s st).toList
  | .seq a b, st => (mrun a st).flatMap (mrun b)
  | .alt a b, st => mrun a st ++ mrun b st
  | .optG a, st => mrun a st ++ [st]
  | .starCls p, st =>
    (clsCounts p 0 st.rest.length false st.rest).filterMap fun k =>
      (takeCls p k st.prev st.rest).map fun (pv, r) => { st with prev := pv, rest := r }
  | .plusCls p, st =>
    (clsCounts p 1 st.rest.length false st.rest).filterMap fun k =>
      (takeCls p k st.prev st.rest).map fun (pv, r) => { st with prev := pv, rest := r }
  | .lazyPlusCls p, st =>
    (clsCounts p 1 st.rest.length true st.rest).filterMap fun k =>
      (takeCls p k st.prev st.rest).map fun (pv, r) => { st with prev := pv, rest := r }
  | .repCls p lo hi, st =>
    (clsCounts p lo hi false st.rest).filterMap fun k =>
      (takeCls p k st.prev st.rest).map fun (pv, r) => { st with prev := pv, rest := r }
  | .grp n a, st =>
    (mrun a st).map fun st' =>
      let consumed := st.rest.take (st.rest.length - st'.rest.length)
      { st' with caps := (n, consumed) :: st'.caps }
  | .wordB, st => if atWordB st then [st] else []
  | .eos, st => if atEos st then [st] else []
  | .lookahead a, st => if (mrun a st).isEmpty then [] else [st]

/-- Result of a successful search: start position, end position, and the
captured groups (a group may appear several times; the first entry is the
final value, as groups in this code are never repeated). -/
structure MFound where
  start : Nat
  stop : Nat
  caps : List (Nat × List Char)

/-- Look up a capture group; `none` both when the group never matched and
when it is absent, as in Python's `match.group`. -/
def MFound.grp? (m : MFound) (n : Nat) : Option (List Char) :=
  (m.caps.find? (fun pr => pr.1 = n)).map (·.2)

/-- Attempt a match anchored at the current position (Python `re.match`,
and `re.search` for a pattern beginning with `^`). -/
def reMatchAt (r : RE) (pv : Option Char) (s : List Char) (pos : Nat) :
    Option MFound :=
  match mrun r { caps := [], prev := pv, rest := s } with
  | [] => none
  | st :: _ => some { start := pos, stop := pos + (s.length - st.rest.length),
                      caps := st.caps }

/-- Python `re.search`: the first match at the leftmost position. -/
def reSearchAux (r : RE) : Option Char → List Char → Nat → Option MFound
  | pv, s, pos =>
    match reMatchAt r pv s pos with
    | some m => some m
    | none =>
      match s with
      | [] => none
      | c :: rest => reSearchAux r (some c) rest (pos + 1)

def reSearch (r : RE) (s : List Char) : Option MFound :=
  reSearchAux r none s 0

/-- Python `re.match` (anchor at position 0). -/
def reMatch (r : RE) (s : List Char) : Option MFound :=
  reMatchAt r none s 0

/-- Does the pattern occur anywhere (`bool(re.search(...))`)? -/
def reTest (r : RE) (s : List Char) : Bool :=
  (reSearch r s).isSome

/-- Python `re.sub(pattern, "", s)` for patterns that always consume at
least one character: remove every non-overlapping occurrence, scanning
left to right. -/
def reSubAllAux (r : RE) : Nat → Option Char → List Char → List Char
  | 0, _, s => s
  | fuel + 1, pv, s =>
    match reMatchAt r pv s 0 with
    | some m =>
      if m.stop = 0 then s
      else reSubAllAux r fuel ((s.take m.stop).getLast?.orElse (fun _ => pv))
             (s.drop m.stop)
    | none =>
      match s with
      | [] => []
      | c :: rest => c :: reSubAllAux r fuel (some c) rest

def reSubAll (r : RE) (s : List Char) : List Char :=
  reSubAllAux r (s.length + 1) none s

/-- Python `re.sub` for a pattern anchored with `^` (replaces only a
leading match, by the empty string). -/
def reSubLeading (r : RE) (s : List Char) : List Char :=
  match reMatchAt r none s 0 with
  | some m => s.drop m.stop
  | none => s

/-- The substring matched by a search, read back from the searched
string (`match.group(0)`). -/
def MFound.matched (m : MFound) (s : List Char) : List Char :=
  (s.drop m.start).take (m.stop - m.start)

/-- Smart constructor: sequence a list of patterns. -/
def RE.seqs : List RE → RE
  | [] => .eps
  | [r] => r
  | r :: rest => .seq r (RE.seqs rest)

/-- Smart constructor: alternate a list of patterns, left to right. -/
def RE.alts : List RE → RE
  | [] => .eps
  | [r] => r
  | r :: rest => .alt r (RE.alts rest)

def rlit (s : String) : RE := .lit s.data
def rlitCI (s : String) : RE := .litCI s.data

/-! ## Character classes used by the source's patterns -/

def isDigitC (c : Char) : Bool := c.isDigit
/-- The regex `.` (any character except a newline). -/
def isDotC (c : Char) : Bool := c ≠ '\n'
/-- The class `[,\s]`. -/
def isCommaSp (c : Char) : Bool := c = ',' || isPySpace c
/-- The class `[\.\s]`. -/
def isDotSp (c : Char) : Bool := c = '.' || isPySpace c
/-- The email local-part class `[a-zA-Z0-9_.+-]`. -/
def isEmailLocal (c : Char) : Bool :=
  c.isAlpha || c.isDigit || c = '_' || c = '.' || c = '+' || c = '-'
/-- The class `[a-zA-Z0-9-]`. -/
def isDomA (c : Char) : Bool := c.isAlpha || c.isDigit || c = '-'
/-- The class `[a-zA-Z0-9-.]`. -/
def isDomB (c : Char) : Bool := c.isAlpha || c.isDigit || c = '-' || c = '.'
/-- The class `['\"]`. -/
def isQuoteC (c : Char) : Bool := c = '\'' || c = '"'
/-- The class `[+-]`. -/
def isPM (c : Char) : Bool := c = '+' || c = '-'
/-- The class `[<\[]`. -/
def isOpenB (c : Char) : Bool := c = '<' || c = '['
/-- The class `[>\]]`. -/
def isCloseB (c : Char) : Bool := c = '>' || c = ']'

/-- `[a-zA-Z0-9_.+-]+@[a-zA-Z0-9-]+\.[a-zA-Z0-9-.]+` — the email pattern
shared by json_processor, header_adapters and html_processor. -/
def emailCore : RE :=
  .seqs [.plusCls isEmailLocal, rlit "@", .plusCls isDomA, rlit ".",
         .plusCls isDomB]

/-! ## Python exceptions and the `datetime` value model -/

inductive PyErr where
  | valueError
  deriving DecidableEq, Repr

/-- Embedded `datetime.datetime`: `clock` is the naive clock reading in
seconds (the calendar date is `clock / 86400` in days, the time of day
`clock % 86400`), `tz` an optional fixed UTC offset in seconds.  All
datetime arithmetic in the source (`-`, `+ timedelta`, `astimezone`,
`combine`) is linear-time arithmetic, so this representation is a
faithful image of `datetime` at second resolution. -/
structure PyDT where
  clock : Int
  tz : Option Int
  deriving DecidableEq, Repr

def secsPerDay : Int := 86400

/-- Time-of-day in seconds (`dt.time()`, at second resolution). -/
def PyDT.timeOfDay (d : PyDT) : Int := d.clock % secsPerDay

/-- Calendar date as a day number (`dt.date()`). -/
def PyDT.dateOf (d : PyDT) : Int := d.clock / secsPerDay

/-- `dt1 - dt2` (Python requires both naive or both aware; every call
site in the source guarantees this, so the naive case reads the clock
directly and the aware case subtracts absolute instants). -/
def pySub (a b : PyDT) : Int :=
  (a.clock - (a.tz.getD 0)) - (b.clock - (b.tz.getD 0))

/-- `dt + timedelta(seconds=k)`. -/
def pyAdd (d : PyDT) (k : Int) : PyDT := { d with clock := d.clock + k }

/-- `datetime.combine(date, time, tzinfo)` for a day number and the
time-of-day of another datetime. -/
def pyCombine (day : Int) (t : PyDT) : PyDT :=
  { clock := day * secsPerDay + t.timeOfDay, tz := t.tz }

/-- Leap-year test. -/
def isLeap (y : Int) : Bool :=
  (y % 4 = 0 && y % 100 ≠ 0) || y % 400 = 0

def daysInMonth (y m : Int) : Int :=
  if m = 2 then (if isLeap y then 29 else 28)
  else if m = 4 || m = 6 || m = 9 || m = 11 then 30
  else 31

/-- Day number of a civil date (days since 1970-01-01; the standard
"days from civil" computation, valid for the years `datetime` accepts). -/
def daysFromCivil (y m d : Int) : Int :=
  let y' := if m ≤ 2 then y - 1 else y
  let era := y' / 400
  let yoe := y' - era * 400
  let mp := (m + 9) % 12
  let doy := (153 * mp + 2) / 5 + d - 1
  let doe := yoe * 365 + yoe / 4 - yoe / 100 + doy
  era * 146097 + doe - 719468

/-- The `datetime.datetime(year, month, day, hour, minute, second)`
constructor: raises `ValueError` when a component is out of range. -/
def mkDatetime (y mo d h mi s : Int) (tz : Option Int) :
    Except PyErr PyDT :=
  if 1 ≤ y ∧ y ≤ 9999 ∧ 1 ≤ mo ∧ mo ≤ 12 ∧ 1 ≤ d ∧ d ≤ daysInMonth y mo ∧
     0 ≤ h ∧ h ≤ 23 ∧ 0 ≤ mi ∧ mi ≤ 59 ∧ 0 ≤ s ∧ s ≤ 59 then
    .ok { clock := daysFromCivil y mo d * secsPerDay + h * 3600 + mi * 60 + s,
          tz := tz }
  else .error .valueError

/-- `datetime.timezone(timedelta)`: the offset must be strictly between
-24 and +24 hours, else `ValueError`. -/
def mkTimezone (offset : Int) : Except PyErr Int :=
  if -secsPerDay < offset ∧ offset < secsPerDay then .ok offset
  else .error .valueError

/-! ## Data model of json_processor (Contact / Header / Message) -/

structure Contact where
  name : Option String
  email : String
  deriving DecidableEq, Repr

structure Header where
  from_ : Contact
  sent : Option PyDT
  to_ : Option Contact
  subject : Option String
  deriving DecidableEq, Repr

structure Message where
  header : Option Header
  text : String
  deriving DecidableEq, Repr

/-! ## `JsonProcessor._parse_contact` -/

def digitsToInt (s : List Char) : Int :=
  (s.foldl (fun a c => a * 10 + (c.toNat - 48)) 0 : Nat)

/-- `^(.+?)\s*[<\[]\s*(?:mailto:)?(EMAIL)\s*[>\]]` -/
def contactRe1 : RE :=
  .seqs [.grp 1 (.lazyPlusCls isDotC), .starCls isPySpace, .cls isOpenB,
         .starCls isPySpace, .optG (rlit "mailto:"), .grp 2 emailCore,
         .starCls isPySpace, .cls isCloseB]

/-- `[<\[]\s*(?:mailto:)?(EMAIL)\s*[>\]]` -/
def contactRe2 : RE :=
  .seqs [.cls isOpenB, .starCls isPySpace, .optG (rlit "mailto:"),
         .grp 1 emailCore, .starCls isPySpace, .cls isCloseB]

/-- `JsonProcessor._parse_contact`. -/
def parseContact (contactStr : String) : Option Contact :=
  if contactStr.isEmpty then none else
  let s := pyStripSetL isQuoteC (pyStripL contactStr.data)
  match reMatch contactRe1 s with
  | some m =>
    let name := pyStripL ((m.grp? 1).getD [])
    let email := pyStripL ((m.grp? 2).getD [])
    let name := pyStripL (reSubAll emailCore name)
    let name := pyStripSetL isQuoteC name
    some { email := ⟨email⟩, name := if name.isEmpty then none else some ⟨name⟩ }
  | none =>
  match reSearch contactRe2 s with
  | some m =>
    some { email := ⟨pyStripL ((m.grp? 1).getD [])⟩, name := none }
  | none =>
  match reSearch emailCore s with
  | some m =>
    let email := pyStripL (m.matched s)
    let namePart := pyStripL (s.take m.start)
    if namePart.isEmpty then some { email := ⟨email⟩, name := none }
    else some { email := ⟨email⟩,
                name := some ⟨pyStripSetL isQuoteC namePart⟩ }
  | none => none

/-! ## `JsonProcessor._parse_datetime` -/

/-- `(\d{2})\.(\d{2})\.(\d{4})[,\s]+(\d{1,2}):(\d{2})` -/
def dtRe1 : RE :=
  .seqs [.grp 1 (.repCls isDigitC 2 2), rlit ".", .grp 2 (.repCls isDigitC 2 2),
         rlit ".", .grp 3 (.repCls isDigitC 4 4), .plusCls isCommaSp,
         .grp 4 (.repCls isDigitC 1 2), rlit ":", .grp 5 (.repCls isDigitC 2 2)]

/-- `(?:\w+,\s+)?(\d{1,2})\s+(\w+)\.?\s+(\d{4})\s+г\.\s+в\s+(\d{1,2}):(\d{2})`
(IGNORECASE). -/
def dtRe2 : RE :=
  .seqs [.optG (.seqs [.plusCls isPyWord, rlit ",", .plusCls isPySpace]),
         .grp 1 (.repCls isDigitC 1 2), .plusCls isPySpace,
         .grp 2 (.plusCls isPyWord), .optG (rlit "."), .plusCls isPySpace,
         .grp 3 (.repCls isDigitC 4 4), .plusCls isPySpace, rlitCI "г",
         rlit ".", .plusCls isPySpace, rlitCI "в", .plusCls isPySpace,
         .grp 4 (.repCls isDigitC 1 2), rlit ":", .grp 5 (.repCls isDigitC 2 2)]

/-- `(?:\w+,\s+)?(\w+)\s+(\d{1,2}),\s+(\d{4})\s+(\d{1,2}):(\d{2})\s+(AM|PM)`
(IGNORECASE). -/
def dtRe3 : RE :=
  .seqs [.optG (.seqs [.plusCls isPyWord, rlit ",", .plusCls isPySpace]),
         .grp 1 (.plusCls isPyWord), .plusCls isPySpace,
         .grp 2 (.repCls isDigitC 1 2), rlit ",", .plusCls isPySpace,
         .grp 3 (.repCls isDigitC 4 4), .plusCls isPySpace,
         .grp 4 (.repCls isDigitC 1 2), rlit ":", .grp 5 (.repCls isDigitC 2 2),
         .plusCls isPySpace, .grp 6 (.alt (rlitCI "AM") (rlitCI "PM"))]

/-- `([+-]\d{2}:\d{2})` (the optional trailing offset group body). -/
def tzGroupRe : RE :=
  .seqs [.cls isPM, .repCls isDigitC 2 2, rlit ":", .repCls isDigitC 2 2]

/-- `(\d{1,2})\s+(\w+)\s+(\d{4})\s+г\.[,\s]+(\d{1,2}):(\d{2}):(\d{2})(?:\s*([+-]\d{2}:\d{2}))?`
(IGNORECASE). -/
def dtRe4 : RE :=
  .seqs [.grp 1 (.repCls isDigitC 1 2), .plusCls isPySpace,
         .grp 2 (.plusCls isPyWord), .plusCls isPySpace,
         .grp 3 (.repCls isDigitC 4 4), .plusCls isPySpace, rlitCI "г",
         rlit ".", .plusCls isCommaSp, .grp 4 (.repCls isDigitC 1 2), rlit ":",
         .grp 5 (.repCls isDigitC 2 2), rlit ":", .grp 6 (.repCls isDigitC 2 2),
         .optG (.seqs [.starCls isPySpace, .grp 7 tzGroupRe])]

/-- `(\d{1,2})\s+(\w+)\s+(\d{4})[,\s]+(\d{1,2}):(\d{2})(?:\s*([+-]\d{2}:\d{2}))?`
(IGNORECASE). -/
def dtRe5 : RE :=
  .seqs [.grp 1 (.repCls isDigitC 1 2), .plusCls isPySpace,
         .grp 2 (.plusCls isPyWord), .plusCls isPySpace,
         .grp 3 (.repCls isDigitC 4 4), .plusCls isCommaSp,
         .grp 4 (.repCls isDigitC 1 2), rlit ":", .grp 5 (.repCls isDigitC 2 2),
         .optG (.seqs [.starCls isPySpace, .grp 6 tzGroupRe])]

/-- `(\d{2})\.(\d{2})\.(\d{4})` -/
def dtRe6 : RE :=
  .seqs [.grp 1 (.repCls isDigitC 2 2), rlit ".", .grp 2 (.repCls isDigitC 2 2),
         rlit ".", .grp 3 (.repCls isDigitC 4 4)]

/-- `JsonProcessor.MONTH_MAP`, applied to `month_name.lower()[:3]`. -/
def monthMap (k : List Char) : Option Int :=
  if k = "янв".data then some 1 else if k = "фев".data then some 2 else
  if k = "мар".data then some 3 else if k = "апр".data then some 4 else
  if k = "май".data then some 5 else if k = "мая".data then some 5 else
  if k = "июн".data then some 6 else if k = "июл".data then some 7 else
  if k = "авг".data then some 8 else if k = "сен".data then some 9 else
  if k = "окт".data then some 10 else if k = "ноя".data then some 11 else
  if k = "дек".data then some 12 else
  if k = "jan".data then some 1 else if k = "feb".data then some 2 else
  if k = "mar".data then some 3 else if k = "apr".data then some 4 else
  if k = "may".data then some 5 else if k = "jun".data then some 6 else
  if k = "jul".data then some 7 else if k = "aug".data then some 8 else
  if k = "sep".data then some 9 else if k = "oct".data then some 10 else
  if k = "nov".data then some 11 else if k = "dec".data then some 12 else
  none

/-- Month-name lookup as performed by the source:
`MONTH_MAP.get(month_name.lower()[:3])`. -/
def monthOfName (name : List Char) : Option Int :=
  monthMap ((pyLower name).take 3)

/-- Parse a captured `[+-]\d{2}:\d{2}` offset and build the timezone,
raising as `datetime.timezone` would for an out-of-range offset. -/
def tzOfGroup (g : List Char) : Except PyErr Int :=
  match g with
  | sign :: rest =>
    let hh := digitsToInt (rest.take 2)
    let mm := digitsToInt ((rest.drop 3).take 2)
    let off := hh * 3600 + mm * 60
    mkTimezone (if sign = '-' then -off else off)
  | [] => .error .valueError

/-- Branch 6 of `_parse_datetime` (bare `dd.mm.yyyy`, midnight). -/
def parseDatetime6 (s : List Char) : Except PyErr (Option PyDT) :=
  match reSearch dtRe6 s with
  | some m =>
    (mkDatetime (digitsToInt ((m.grp? 3).getD [])) (digitsToInt ((m.grp? 2).getD []))
       (digitsToInt ((m.grp? 1).getD [])) 0 0 0 none).map some
  | none => .ok none

/-- Branch 5 of `_parse_datetime` (`d month yyyy, hh:mm [±hh:mm]`). -/
def parseDatetime5 (s : List Char) : Except PyErr (Option PyDT) :=
  match reSearch dtRe5 s with
  | some m =>
    match monthOfName ((m.grp? 2).getD []) with
    | some mo => do
      let tz ← match m.grp? 6 with
        | some g => (tzOfGroup g).map some
        | none => pure none
      (mkDatetime (digitsToInt ((m.grp? 3).getD [])) mo
        (digitsToInt ((m.grp? 1).getD [])) (digitsToInt ((m.grp? 4).getD []))
        (digitsToInt ((m.grp? 5).getD [])) 0 tz).map some
    | none => parseDatetime6 s
  | none => parseDatetime6 s

/-- Branch 4 of `_parse_datetime` (`d month yyyy г., hh:mm:ss [±hh:mm]`). -/
def parseDatetime4 (s : List Char) : Except PyErr (Option PyDT) :=
  match reSearch dtRe4 s with
  | some m =>
    match monthOfName ((m.grp? 2).getD []) with
    | some mo => do
      let tz ← match m.grp? 7 with
        | some g => (tzOfGroup g).map some
        | none => pure none
      (mkDatetime (digitsToInt ((m.grp? 3).getD [])) mo
        (digitsToInt ((m.grp? 1).getD [])) (digitsToInt ((m.grp? 4).getD []))
        (digitsToInt ((m.grp? 5).getD [])) (digitsToInt ((m.grp? 6).getD [])) tz).map some
    | none => parseDatetime5 s
  | none => parseDatetime5 s

/-- Branch 3 of `_parse_datetime` (`Weekday, Month dd, yyyy h:mm AM/PM`). -/
def parseDatetime3 (s : List Char) : Except PyErr (Option PyDT) :=
  match reSearch dtRe3 s with
  | some m =>
    match monthOfName ((m.grp? 1).getD []) with
    | some mo =>
      let hour := digitsToInt ((m.grp? 4).getD [])
      let ampm := pyLower ((m.grp? 6).getD [])
      let hour :=
        if ampm = "pm".data ∧ hour ≠ 12 then hour + 12
        else if ampm = "am".data ∧ hour = 12 then 0
        else hour
      (mkDatetime (digitsToInt ((m.grp? 3).getD [])) mo
        (digitsToInt ((m.grp? 2).getD [])) hour
        (digitsToInt ((m.grp? 5).getD [])) 0 none).map some
    | none => parseDatetime4 s
  | none => parseDatetime4 s

/-- Branch 2 of `_parse_datetime` (`пн, d апр. yyyy г. в hh:mm`). -/
def parseDatetime2 (s : List Char) : Except PyErr (Option PyDT) :=
  match reSearch dtRe2 s with
  | some m =>
    match monthOfName ((m.grp? 2).getD []) with
    | some mo =>
      (mkDatetime (digitsToInt ((m.grp? 3).getD [])) mo
        (digitsToInt ((m.grp? 1).getD [])) (digitsToInt ((m.grp? 4).getD []))
        (digitsToInt ((m.grp? 5).getD [])) 0 none).map some
    | none => parseDatetime3 s
  | none => parseDatetime3 s

/-- `JsonProcessor._parse_datetime`.  Note that a branch whose regex
matched builds the `datetime` unconditionally, so out-of-range
components (e.g. month 99) raise `ValueError` instead of yielding
`None`. -/
def parseDatetime (dateStr : String) : Except PyErr (Option PyDT) :=
  if dateStr.isEmpty then .ok none else
  let s := pyStripL dateStr.data
  match reSearch dtRe1 s with
  | some m =>
    (mkDatetime (digitsToInt ((m.grp? 3).getD [])) (digitsToInt ((m.grp? 2).getD []))
      (digitsToInt ((m.grp? 1).getD [])) (digitsToInt ((m.grp? 4).getD []))
      (digitsToInt ((m.grp? 5).getD [])) 0 none).map some
  | none => parseDatetime2 s

/-! ## `JsonProcessor._parse_header_block` -/

def fromLabels : RE := .alt (rlitCI "From") (rlitCI "От")
def sentLabels : RE :=
  .alts [rlitCI "Sent", rlitCI "Date", rlitCI "Отправлено", rlitCI "Дата"]
def toLabels : RE := .alt (rlitCI "To") (rlitCI "Кому")
def subjLabels : RE := .alt (rlitCI "Subject") (rlitCI "Тема")
def ccLabels : RE := .alt (rlitCI "Cc") (rlitCI "Копия")

/-- Build the field regex
`\bLABEL\s*:\s*(.+?)(?=\s+\bNEXT\s*:|$)` of `_parse_header_block`. -/
def fieldRe (labels next : RE) : RE :=
  .seqs [.wordB, labels, .starCls isPySpace, rlit ":", .starCls isPySpace,
         .grp 1 (.lazyPlusCls isDotC),
         .lookahead (.alt
           (.seqs [.plusCls isPySpace, .wordB, next, .starCls isPySpace, rlit ":"])
           .eos)]

def hbFromRe : RE := fieldRe fromLabels (.alts [sentLabels, toLabels])
def hbSentRe : RE := fieldRe sentLabels (.alts [toLabels, subjLabels, ccLabels])
def hbToRe : RE := fieldRe toLabels (.alts [subjLabels, ccLabels])
def hbSubjectRe : RE := fieldRe subjLabels ccLabels

/-- `JsonProcessor._parse_header_block`.  The fields are computed in
source order (a raising `_parse_datetime` on the Sent field propagates
before the From check). -/
def parseHeaderBlock (headerStr : String) : Except PyErr (Option Header) := do
  let s := headerStr.data
  let fromC := (reSearch hbFromRe s).bind fun m =>
    parseContact ⟨(m.grp? 1).getD []⟩
  let sent ← match reSearch hbSentRe s with
    | some m => parseDatetime ⟨(m.grp? 1).getD []⟩
    | none => pure none
  let toC := (reSearch hbToRe s).bind fun m =>
    parseContact ⟨(m.grp? 1).getD []⟩
  let subject := (reSearch hbSubjectRe s).map fun m =>
    (⟨pyStripL ((m.grp? 1).getD [])⟩ : String)
  match fromC with
  | none => pure none
  | some fc => pure (some { from_ := fc, sent := sent, to_ := toC, subject := subject })

/-! ## `JsonProcessor._parse_header_oneline` -/

/-- `^Вы\s+писали\s+` (IGNORECASE). -/
def vyPisaliRe : RE :=
  .seqs [rlitCI "Вы", .plusCls isPySpace, rlitCI "писали", .plusCls isPySpace]

/-- `(\d{1,2}:\d{2}(?::\d{2})?)` -/
def timeCaptureRe : RE :=
  .grp 1 (.seqs [.repCls isDigitC 1 2, rlit ":", .repCls isDigitC 2 2,
                 .optG (.seq (rlit ":") (.repCls isDigitC 2 2))])

/-- `^\s*[+-]\d{2}:\d{2}\s*` -/
def tzLeadRe : RE :=
  .seqs [.starCls isPySpace, .cls isPM, .repCls isDigitC 2 2, rlit ":",
         .repCls isDigitC 2 2, .starCls isPySpace]

/-- `^[,\s]*(?:от|from)?\s*` (IGNORECASE). -/
def otFromRe : RE :=
  .seqs [.starCls isCommaSp, .optG (.alt (rlitCI "от") (rlitCI "from")),
         .starCls isPySpace]

/-- `^['\"]*(.+?)['\"]*\s*[<\[]?\s*` + `re.escape(email)`. -/
def nameBeforeEmailRe (email : List Char) : RE :=
  .seqs [.starCls isQuoteC, .grp 1 (.lazyPlusCls isDotC), .starCls isQuoteC,
         .starCls isPySpace, .optG (.cls isOpenB), .starCls isPySpace,
         .lit email]

/-- `JsonProcessor._parse_header_oneline`. -/
def parseHeaderOneline (mainContact : Option Contact) (headerStr : String) :
    Except PyErr (Option Header) := do
  let s := headerStr.data
  if (reMatch vyPisaliRe s).isSome then
    let sent ← parseDatetime headerStr
    match mainContact with
    | some mc => pure (some { from_ := mc, sent := sent, to_ := none, subject := none })
    | none => pure none
  else
    let sent ← parseDatetime headerStr
    let fromC : Option Contact :=
      match reSearch emailCore s with
      | some em =>
        let email := em.matched s
        match reSearch timeCaptureRe s with
        | some tm =>
          let afterTime := pyStripL (s.drop tm.stop)
          let afterTime := reSubLeading tzLeadRe afterTime
          let afterTime := reSubLeading otFromRe afterTime
          match reMatch (nameBeforeEmailRe email) afterTime with
          | some nm =>
            let namePart :=
              pyStripSetL (fun c => c = ',')
                (pyStripSetL isQuoteC (pyStripL ((nm.grp? 1).getD [])))
            some { email := ⟨email⟩,
                   name := if namePart.isEmpty then none else some ⟨namePart⟩ }
          | none => some { email := ⟨email⟩, name := none }
        | none => parseContact headerStr
      | none => none
    match fromC with
    | none => pure none
    | some fc => pure (some { from_ := fc, sent := sent, to_ := none, subject := none })

/-- `(?:From|От)\s*:` (IGNORECASE). -/
def fromColonRe : RE := .seqs [fromLabels, .starCls isPySpace, rlit ":"]

/-- `JsonProcessor._parse_header_string`. -/
def parseHeaderString (mainContact : Option Contact) (headerStr : String) :
    Except PyErr (Option Header) :=
  if headerStr.isEmpty then .ok none
  else if reTest fromColonRe headerStr.data then parseHeaderBlock headerStr
  else parseHeaderOneline mainContact headerStr

/-! ## `JsonProcessor.parse_messages` and `reverse_messages` -/

/-- One record produced by the extractor (`header_str` / `text`). -/
structure RawMsg where
  header_str : Option String
  text : String
  deriving DecidableEq, Repr

/-- `JsonProcessor.parse_messages`.  An absent or empty (falsy)
`header_str` takes the main-contact fallback branch. -/
def parseMessages (mainContact : Option Contact) (msgs : List RawMsg) :
    Except PyErr (List Message) :=
  msgs.mapM fun md => do
    let header ←
      match md.header_str with
      | some hs =>
        if hs.isEmpty then
          pure (mainContact.map fun mc =>
            { from_ := mc, sent := none, to_ := none, subject := none })
        else parseHeaderString mainContact hs
      | none =>
        pure (mainContact.map fun mc =>
          { from_ := mc, sent := none, to_ := none, subject := none })
    pure { header := header, text := md.text }

/-- `JsonProcessor.reverse_messages`. -/
def reverseMessages (msgs : List Message) : List Message := msgs.reverse

/-! ## The document tree

`HNode` embeds the bs4 tree: elements with a name, an ordered attribute
list and children, and text nodes (`NavigableString`).  The documents
handled by this code contain no comments or doctypes after parsing. -/

inductive HNode where
  | text (s : String)
  | tag (name : String) (attrs : List (String × String)) (children : List HNode)
  deriving Repr

mutual
/-- Decidable equality for the nested tree type. -/
def decEqHNode : (a b : HNode) → Decidable (a = b)
  | .text s, .text t =>
    if h : s = t then .isTrue (by rw [h])
    else .isFalse (by intro hc; injection hc; contradiction)
  | .text _, .tag _ _ _ => .isFalse (by intro hc; exact HNode.noConfusion hc)
  | .tag _ _ _, .text _ => .isFalse (by intro hc; exact HNode.noConfusion hc)
  | .tag n1 a1 c1, .tag n2 a2 c2 =>
    if h1 : n1 = n2 then
      if h2 : a1 = a2 then
        match decEqHList c1 c2 with
        | .isTrue h3 => .isTrue (by rw [h1, h2, h3])
        | .isFalse h3 => .isFalse (by intro hc; injection hc; contradiction)
      else .isFalse (by intro hc; injection hc; contradiction)
    else .isFalse (by intro hc; injection hc; contradiction)

def decEqHList : (a b : List HNode) → Decidable (a = b)
  | [], [] => .isTrue rfl
  | [], _ :: _ => .isFalse (by intro hc; exact List.noConfusion hc)
  | _ :: _, [] => .isFalse (by intro hc; exact List.noConfusion hc)
  | x :: xs, y :: ys =>
    match decEqHNode x y, decEqHList xs ys with
    | .isTrue h1, .isTrue h2 => .isTrue (by rw [h1, h2])
    | .isFalse h1, _ => .isFalse (by intro hc; injection hc; contradiction)
    | _, .isFalse h2 => .isFalse (by intro hc; injection hc; contradiction)
end

instance : DecidableEq HNode := decEqHNode

/-- The internal marker attribute. -/
def markAttr : String := "simple-email-parse-attr"

def HNode.nameOf : HNode → String
  | .text _ => ""
  | .tag n _ _ => n

def HNode.isTag : HNode → Bool
  | .text _ => false
  | .tag _ _ _ => true

/-- `tag.get(key)`. -/
def HNode.getAttr : HNode → String → Option String
  | .text _, _ => none
  | .tag _ attrs _, k => (attrs.find? (fun a => a.1 = k)).map (·.2)

/-- `tag.get(key, "")`. -/
def HNode.attrD (n : HNode) (k : String) : String := (n.getAttr k).getD ""

/-- `tag[key] = value` (replace or append). -/
def setAttr (attrs : List (String × String)) (k v : String) :
    List (String × String) :=
  if attrs.any (fun a => a.1 = k) then
    attrs.map (fun a => if a.1 = k then (k, v) else a)
  else attrs ++ [(k, v)]

/-- Does the node carry the marker attribute (regardless of value)? -/
def hasMark (n : HNode) : Bool := (n.getAttr markAttr).isSome

/-- Does the marker value start with `quote_header_`? -/
def isQuoteHeaderVal (v : String) : Bool :=
  "quote_header_".data.isPrefixOf v.data

/-- `str(attr).startswith("quote_header_")` on a node's marker. -/
def isQuoteHeaderNode (n : HNode) : Bool := isQuoteHeaderVal (n.attrD markAttr)

mutual
/-- All descendant strings of a node, in document order (the text nodes
bs4's `_all_strings` yields; a text node yields itself). -/
def collectStrings : HNode → List String
  | .text s => [s]
  | .tag _ _ cs => collectStringsList cs

def collectStringsList : List HNode → List String
  | [] => []
  | c :: rest => collectStrings c ++ collectStringsList rest
end

/-- Python `sep.join(parts)`. -/
def joinSep (sep : String) : List String → String
  | [] => ""
  | [s] => s
  | s :: rest => s ++ sep ++ joinSep sep rest

/-- `node.get_text(separator=sep, strip=True)`: strip each descendant
string, drop the empty ones, join with the separator. -/
def getTextStrip (sep : String) (n : HNode) : String :=
  joinSep sep
    (((collectStrings n).map pyStrip).filter (fun s => s ≠ ""))

/-- `BaseHeaderAdapter._get_clean_text`: a text node is stripped; a tag
has its `<br>`s replaced by `"\n"` (which the strip then drops) and is
rendered by `get_text(separator=" ", strip=True)`. -/
def cleanText (n : HNode) : String :=
  match n with
  | .text s => pyStrip s
  | .tag _ _ _ => getTextStrip " " n

mutual
/-- `BaseHeaderAdapter._has_marked_children`:
`element.find(attrs={"simple-email-parse-attr": True})` — is some
proper descendant marked? -/
def hasMarkedDesc : HNode → Bool
  | .text _ => false
  | .tag _ _ cs => hasMarkedDescList cs

def hasMarkedDescList : List HNode → Bool
  | [] => false
  | c :: rest => hasMark c || hasMarkedDesc c || hasMarkedDescList rest
end

/-- bs4's minimal formatter escaping for rendered text nodes. -/
def escapeStr (s : String) : String :=
  ⟨s.data.flatMap fun c =>
    if c = '&' then "&amp;".data
    else if c = '<' then "&lt;".data
    else if c = '>' then "&gt;".data
    else [c]⟩

/-- HTML empty-element tags (rendered self-closed by bs4). -/
def isVoidTag (n : String) : Bool :=
  n = "br" || n = "hr" || n = "img" || n = "input" || n = "meta" ||
  n = "link" || n = "base" || n = "col" || n = "area" || n = "embed" ||
  n = "source" || n = "track" || n = "wbr"

def renderAttrs (attrs : List (String × String)) : String :=
  String.join (attrs.map fun a => " " ++ a.1 ++ "=\"" ++ a.2 ++ "\"")

mutual
/-- `str(node)`: bs4's rendering of a subtree. -/
def renderNode : HNode → String
  | .text s => escapeStr s
  | .tag n attrs cs =>
    if isVoidTag n ∧ cs.isEmpty then "<" ++ n ++ renderAttrs attrs ++ "/>"
    else "<" ++ n ++ renderAttrs attrs ++ ">" ++ renderList cs ++ "</" ++ n ++ ">"

def renderList : List HNode → String
  | [] => ""
  | c :: rest => renderNode c ++ renderList rest
end

/-- `tag.decode_contents()`: the rendered inner markup. -/
def decodeContents : HNode → String
  | .text _ => ""
  | .tag _ _ cs => renderList cs

/-! ## Header adapters (`header_adapters.py`)

`Candidate` carries the sibling context an adapter's `match` consults:
the elder siblings (nearest first) and the younger siblings (nearest
first) of the examined node. -/

structure Candidate where
  elem : HNode
  prevSibs : List HNode
  nextSibs : List HNode

/-- `OnelineHeaderAdapter.DATE_PATTERN`:
`(\d{1,2}[\.\s]+\w+[\.\s]+\d{4}|\d{2}\.\d{2}\.\d{4})`. -/
def adapterDateRe : RE :=
  .alt (.seqs [.repCls isDigitC 1 2, .plusCls isDotSp, .plusCls isPyWord,
               .plusCls isDotSp, .repCls isDigitC 4 4])
       (.seqs [.repCls isDigitC 2 2, rlit ".", .repCls isDigitC 2 2,
               rlit ".", .repCls isDigitC 4 4])

/-- `OnelineHeaderAdapter.TIME_PATTERN`: `\d{1,2}:\d{2}`. -/
def adapterTimeRe : RE :=
  .seqs [.repCls isDigitC 1 2, rlit ":", .repCls isDigitC 2 2]

def onelineKeywords : List String :=
  ["от", "from", "sender", "via", "написал", "wrote"]

def onelineActionPhrases : List String :=
  ["вы писали", "you wrote", "wrote"]

/-- `OnelineHeaderAdapter.match`. -/
def onelineMatch (el : HNode) : Bool :=
  if hasMarkedDesc el then false else
  let t := (cleanText el).data
  if t.length < 10 || t.length > 350 then false else
  if countChar '\n' t > 3 then false else
  let tl := pyLower t
  let hasDate := reTest adapterDateRe t
  let hasTime := reTest adapterTimeRe t
  let hasEmail := reTest emailCore t
  let hasKeyword := onelineKeywords.any (fun k => isSubList k.data tl)
  let hasAction := onelineActionPhrases.any (fun k => isSubList k.data tl)
  let endsColon := endsWithChar ':' (pyStripL t)
  if hasAction && endsColon && (hasDate || hasTime) then true
  else if hasDate && hasTime && hasEmail then true
  else if hasDate && hasTime && hasKeyword && endsColon then true
  else false

/-- `KEY_PATTERNS` shared by the key-value and multiple-div adapters
(each is `(?:Label|Label)\s*:`, IGNORECASE). -/
def kvKeyRes : List RE :=
  [.seqs [fromLabels, .starCls isPySpace, rlit ":"],
   .seqs [sentLabels, .starCls isPySpace, rlit ":"],
   .seqs [toLabels, .starCls isPySpace, rlit ":"],
   .seqs [subjLabels, .starCls isPySpace, rlit ":"],
   .seqs [ccLabels, .starCls isPySpace, rlit ":"]]

def anyKeyIn (t : List Char) : Bool := kvKeyRes.any (fun r => reTest r t)

/-- The elder sibling examined by `KeyValueHeaderAdapter.match`
(whitespace-only strings are skipped). -/
def kvPrevSibling : List HNode → Option HNode
  | [] => none
  | n :: rest =>
    match n with
    | .text s => if (pyStripL s.data).isEmpty then kvPrevSibling rest else some n
    | _ => some n

/-- `KeyValueHeaderAdapter.match`. -/
def kvMatch (c : Candidate) : Bool :=
  match c.elem with
  | .text _ => false
  | .tag _ _ _ =>
    if hasMarkedDesc c.elem then false else
    let t := (cleanText c.elem).data
    if t.length < 15 || t.length > 1000 then false else
    let starts := kvKeyRes.filterMap (fun r => (reSearch r t).map (·.start))
    if starts.length < 2 then false else
    if starts.foldr min (t.length + 51) > 50 then false else
    match kvPrevSibling c.prevSibs with
    | some p => ¬ anyKeyIn (cleanText p).data
    | none => true

/-- `DividerHeaderAdapter.PATTERN`:
`^-+\s*(?:Пересылаемое сообщение|Forwarded message|Original Message)\s*-+$`
(IGNORECASE). -/
def dividerRe : RE :=
  .seqs [.plusCls (fun c => c = '-'), .starCls isPySpace,
         .alts [rlitCI "Пересылаемое сообщение", rlitCI "Forwarded message",
                rlitCI "Original Message"],
         .starCls isPySpace, .plusCls (fun c => c = '-'), .eos]

/-- `EndDividerHeaderAdapter.PATTERN`. -/
def endDividerRe : RE :=
  .seqs [.plusCls (fun c => c = '-'), .starCls isPySpace,
         .alts [rlitCI "Конец пересылаемого сообщения",
                rlitCI "End of forwarded message"],
         .starCls isPySpace, .plusCls (fun c => c = '-'), .eos]

/-- `DividerHeaderAdapter.match`. -/
def dividerMatch (el : HNode) : Bool :=
  if hasMarkedDesc el then false
  else (reMatch dividerRe (cleanText el).data).isSome

/-- `EndDividerHeaderAdapter.match`. -/
def endDividerMatch (el : HNode) : Bool :=
  if hasMarkedDesc el then false
  else (reMatch endDividerRe (cleanText el).data).isSome

/-- Is a sibling a datetime line in the sense of the multiple-div
adapter's forward scan (`date+time+email+colon`, clean text only)? -/
def mdNextDatetimeLine (t : List Char) : Bool :=
  reTest adapterDateRe t && reTest adapterTimeRe t && reTest emailCore t &&
  endsWithChar ':' (pyStripL t)

/-- Backward sibling scan of `MultipleDivHeaderAdapter.match`: collect
adjacent unmarked key-bearing `div`s, skipping whitespace strings
(result nearest-first). -/
def mdPrevChain : List HNode → List HNode
  | [] => []
  | n :: rest =>
    match n with
    | .text s => if (pyStripL s.data).isEmpty then mdPrevChain rest else []
    | .tag nm _ _ =>
      if nm ≠ "div" then [] else
      if hasMark n then [] else
      if anyKeyIn (cleanText n).data then n :: mdPrevChain rest else []

/-- Forward sibling scan of `MultipleDivHeaderAdapter.match`. -/
def mdNextChain : List HNode → List HNode
  | [] => []
  | n :: rest =>
    match n with
    | .text s => if (pyStripL s.data).isEmpty then mdNextChain rest else []
    | .tag nm _ _ =>
      if nm ≠ "div" then [] else
      if hasMark n then [] else
      let t := (cleanText n).data
      if anyKeyIn t || mdNextDatetimeLine t then n :: mdNextChain rest else []

/-- `^\s*` + key pattern, tested with `re.match`. -/
def mdStartsWithKey (t : List Char) : Bool :=
  kvKeyRes.any fun r =>
    (reMatch (.seq (.starCls isPySpace) r) t).isSome

/-- `MultipleDivHeaderAdapter.match`. -/
def multiDivMatch (c : Candidate) : Bool :=
  match c.elem with
  | .text _ => false
  | .tag nm _ _ =>
    if hasMarkedDesc c.elem then false else
    if nm ≠ "div" then false else
    let t := (cleanText c.elem).data
    let hasKey := anyKeyIn t
    let hasDate := reTest adapterDateRe t
    let hasTime := reTest adapterTimeRe t
    let hasEmail := reTest emailCore t
    let endsColon := endsWithChar ':' (pyStripL t)
    let hasEmailHtml := reTest emailCore (renderNode c.elem).data
    let isDtLine := hasDate && hasTime && endsColon && (hasEmail || hasEmailHtml)
    if ¬ (hasKey || isDtLine) then false else
    let prevSibsDoc := (mdPrevChain c.prevSibs).reverse
    let sibsWithKeys := prevSibsDoc ++ mdNextChain c.nextSibs
    if sibsWithKeys.length < 1 then false else
    let firstDiv := prevSibsDoc.headD c.elem
    let firstText := pyStripL (cleanText firstDiv).data
    if ¬ mdStartsWithKey firstText then false else
    if 1 + sibsWithKeys.length > 5 then false else
    let totalLen := t.length +
      (sibsWithKeys.map (fun s => (cleanText s).data.length)).sum
    if totalLen > 600 then false else
    true

/-- The marker values of `DEFAULT_ADAPTERS`, in construction order. -/
def dividerAttr : String := "divider"
def endDividerAttr : String := "end_divider"
def multiDivAttr : String := "quote_header_multiple_block"
def kvAttr : String := "quote_header_block"
def onelineAttr : String := "quote_header_oneline"

/-- The adapter loop of `HtmlProcessor.process_headers` over
`DEFAULT_ADAPTERS`: try each adapter in the fixed order and return the
marker value of the first match. -/
def classify (c : Candidate) : Option String :=
  if dividerMatch c.elem then some dividerAttr
  else if endDividerMatch c.elem then some endDividerAttr
  else if multiDivMatch c then some multiDivAttr
  else if kvMatch c then some kvAttr
  else if onelineMatch c.elem then some onelineAttr
  else none

/-- `BaseHeaderAdapter.mark`: collapse the node to a single normalized
text child carrying the marker (a text node is replaced by a marked
`div`); a node with empty clean text is left unchanged. -/
def markNode (attrVal : String) (n : HNode) : HNode :=
  let t := cleanText n
  if t.isEmpty then n
  else match n with
  | .tag nm attrs _ => .tag nm (setAttr attrs markAttr attrVal) [.text t]
  | .text _ => .tag "div" [(markAttr, attrVal)] [.text t]

/-! ## `JsonProcessor._extract_messages_recursive`

The source walks a mutable bs4 tree using only read-only accessors
(`children`, `get`, `get_text`, `decode_contents`).  `extractNode` is
the direct functional reading; `extractNodeSt` is the state-passing
reading, in which the traversal hands the (potentially mutated) tree
back — the claim that extraction is read-only is the statement that the
two agree and the returned tree is the input tree. -/

/-- Is a child the header element
(`str(child.get("simple-email-parse-attr", "")).startswith("quote_header_")`,
tags only)? -/
def isQuoteHeaderChild (n : HNode) : Bool :=
  n.isTag && isQuoteHeaderVal (n.attrD markAttr)

def headerIdxAux (i : Nat) : List HNode → Option Nat
  | [] => none
  | k :: rest => if isQuoteHeaderChild k then some i else headerIdxAux (i + 1) rest

/-- Index of the first header child of a blockquote's children. -/
def headerIdxOf (kids : List HNode) : Option Nat := headerIdxAux 0 kids

mutual
/-- `_extract_messages_recursive`. -/
def extractNode : HNode → List RawMsg
  | .text _ => []
  | .tag name _ kids =>
    let hIdx := if name = "blockquote" then headerIdxOf kids else none
    let headerStr := hIdx.bind fun i => (kids.get? i).map (getTextStrip " ")
    let (parts, nested) := extractKids hIdx 0 kids
    ⟨headerStr, joinSep "\n" parts⟩ :: nested

/-- One pass over the children: text parts of non-blockquote children
and the concatenated records of nested blockquotes, skipping the header
child. -/
def extractKids (hIdx : Option Nat) (i : Nat) :
    List HNode → List String × List RawMsg
  | [] => ([], [])
  | k :: rest =>
    let (ps, ns) := extractKids hIdx (i + 1) rest
    if hIdx = some i then (ps, ns)
    else
      match k with
      | .tag nm _ _ =>
        if nm = "blockquote" then (ps, extractNode k ++ ns)
        else
          let h := decodeContents k
          if pyStrip h = "" then (ps, ns) else (h :: ps, ns)
      | .text s =>
        let s' := pyStrip s
        if s' = "" then (ps, ns) else (s' :: ps, ns)
end

/-- `JsonProcessor.extract_messages` (extraction starts at the soup
root, which is not a blockquote). -/
def extractMessages (t : HNode) : List RawMsg := extractNode t

mutual
/-- State-passing reading of `_extract_messages_recursive`: the
traversal returns the tree it leaves behind alongside the records. -/
def extractNodeSt : HNode → HNode × List RawMsg
  | .text s => (.text s, [])
  | .tag name attrs kids =>
    let hIdx := if name = "blockquote" then headerIdxOf kids else none
    let headerStr := hIdx.bind fun i => (kids.get? i).map (getTextStrip " ")
    let (kids', parts, nested) := extractKidsSt hIdx 0 kids
    (.tag name attrs kids', ⟨headerStr, joinSep "\n" parts⟩ :: nested)

def extractKidsSt (hIdx : Option Nat) (i : Nat) :
    List HNode → List HNode × List String × List RawMsg
  | [] => ([], [], [])
  | k :: rest =>
    let (ks, ps, ns) := extractKidsSt hIdx (i + 1) rest
    if hIdx = some i then (k :: ks, ps, ns)
    else
      match k with
      | .tag nm _ _ =>
        if nm = "blockquote" then
          let (k', ms) := extractNodeSt k
          (k' :: ks, ps, ms ++ ns)
        else
          let h := decodeContents k
          if pyStrip h = "" then (k :: ks, ps, ns) else (k :: ks, h :: ps, ns)
      | .text s =>
        let s' := pyStrip s
        if s' = "" then (k :: ks, ps, ns) else (k :: ks, s' :: ps, ns)
end

/-! ## `JsonProcessor.process_timestamps` and the final MSK pass -/

/-- The fixed UTC+3 offset (`timezone(timedelta(hours=3))`), seconds. -/
def MSK : Int := 10800

/-- `JsonProcessor._convert_to_msk` on a present datetime: a naive
value is stamped with UTC+3 unchanged, an aware one converted. -/
def convertToMsk (d : PyDT) : PyDT :=
  match d.tz with
  | none => { d with tz := some MSK }
  | some z => { clock := d.clock - z + MSK, tz := some MSK }

/-- `dt.time() != time(0,0,0) or dt.tzinfo is not None` — the sent
value counts as a known time. -/
def knownTime (d : PyDT) : Bool := d.timeOfDay ≠ 0 || d.tz ≠ none

/-- `needs_time_calculation` for a header. -/
def needsCalc (h : Header) : Bool :=
  match h.sent with
  | none => true
  | some d => d.timeOfDay = 0 && d.tz = none

/-- `base_date` for a header (set only in the midnight-naive case). -/
def baseDateOf (h : Header) : Option Int :=
  match h.sent with
  | some d => if d.timeOfDay = 0 && d.tz = none then some d.dateOf else none
  | none => none

/-- The sent value at index `j` when it exists and counts as known
(`messages[j].header and messages[j].header.sent` plus the known-time
test; an unknown sent is passed over, not a stopping point). -/
def knownSentAt (ms : List Message) (j : Nat) : Option PyDT :=
  match ms.get? j with
  | some m =>
    match m.header with
    | some h =>
      match h.sent with
      | some d => if knownTime d then some d else none
      | none => none
    | none => none
  | none => none

/-- `for j in range(i-1, -1, -1)`: nearest known predecessor. -/
def scanPrevKnown (ms : List Message) (i : Nat) : Option PyDT :=
  ((List.range i).reverse).findSome? (knownSentAt ms)

/-- `for j in range(i+1, len(messages))`: nearest known successor. -/
def scanNextKnown (ms : List Message) (i : Nat) : Option PyDT :=
  ((List.range ms.length).drop (i + 1)).findSome? (knownSentAt ms)

/-- The body of one iteration of the `process_timestamps` loop.  `n` is
the (constant) length of the message list.  Note the first and last
messages consult only their immediate neighbor, while interior
messages scan for the nearest known neighbors; interior interpolation
converts the naive side to UTC+3 first when exactly one side carries an
offset.  `delta / 2` is exact at the resolutions the data uses (Python
divides a timedelta exactly). -/
def tsStep (n : Nat) (ms : List Message) (i : Nat) : List Message :=
  match ms.get? i with
  | none => ms
  | some m =>
    match m.header with
    | none => ms
    | some h =>
      if ¬ needsCalc h then ms else
      let calcTime : Option PyDT :=
        if i = 0 then
          (knownSentAt ms 1).map (fun d => pyAdd d (-3600))
        else if i = n - 1 then
          (knownSentAt ms (i - 1)).map (fun d => pyAdd d 3600)
        else
          match scanPrevKnown ms i, scanNextKnown ms i with
          | some p, some nx =>
            let pnx : PyDT × PyDT :=
              if p.tz = none ∧ nx.tz ≠ none then (convertToMsk p, nx)
              else if p.tz ≠ none ∧ nx.tz = none then (p, convertToMsk nx)
              else (p, nx)
            some (pyAdd pnx.1 (pySub pnx.2 pnx.1 / 2))
          | _, _ => none
      match calcTime with
      | none => ms
      | some c =>
        let newSent :=
          match baseDateOf h with
          | some bd => pyCombine bd c
          | none => c
        ms.set i { m with header := some { h with sent := some newSent } }

/-- `JsonProcessor.process_timestamps`: the in-place loop as a fold
over the indices. -/
def processTimestamps (ms : List Message) : List Message :=
  (List.range ms.length).foldl (tsStep ms.length) ms

/-- The final loop of `JsonProcessor.process`: convert every present
sent value to UTC+3. -/
def applyMsk (m : Message) : Message :=
  match m.header with
  | some h =>
    match h.sent with
    | some d => { m with header := some { h with sent := some (convertToMsk d) } }
    | none => m
  | none => m

/-- The post-parsing half of `JsonProcessor.process`: reverse, fill in
timestamps, normalize to UTC+3. -/
def timelineFinalize (ms : List Message) : List Message :=
  (processTimestamps (reverseMessages ms)).map applyMsk

/-- `JsonProcessor.process`: extract, parse, reverse, reconcile,
normalize to UTC+3. -/
def jsonProcess (mainContact : Option Contact) (t : HNode) :
    Except PyErr (List Message) := do
  let msgs ← parseMessages mainContact (extractMessages t)
  pure (timelineFinalize msgs)

/-! ## The HTML normalization pipeline (`html_processor.py`)

The bs4 tree is mutable and the Python stages mutate it in place; the
embedding is functional.  Simple stages are bottom-up rewrites; stages
that walk `find_all` results while mutating are embedded by locating
nodes through paths into the current tree, applying one rewrite at a
time and re-collecting — for trees where a pass performs at most one
structural rewrite (all trees evaluated in the theorems below) this
coincides with the in-place iteration.  `while changed` loops become
bounded iteration to the same fixpoint. -/

/-- The document root produced by `BeautifulSoup`. -/
def docRoot (kids : List HNode) : HNode := .tag "[document]" [] kids

def HNode.childrenOf : HNode → List HNode
  | .text _ => []
  | .tag _ _ cs => cs

def setChildren : HNode → List HNode → HNode
  | .tag n a _, cs => .tag n a cs
  | t, _ => t

/-- Modify the `i`-th element of a list (identity when out of range). -/
def modList (cs : List HNode) (i : Nat) (f : HNode → HNode) : List HNode :=
  match cs.get? i with
  | some c => cs.set i (f c)
  | none => cs

/-- Resolve a path (child-index list) in a tree. -/
def getPath : HNode → List Nat → Option HNode
  | t, [] => some t
  | .tag _ _ cs, i :: p => (cs.get? i).bind (fun c => getPath c p)
  | .text _, _ :: _ => none

/-- Replace the node at a path. -/
def replaceAt : HNode → List Nat → HNode → HNode
  | _, [], nw => nw
  | .tag n a cs, i :: p, nw => .tag n a (modList cs i (fun c => replaceAt c p nw))
  | .text s, _, _ => .text s

def spliceList (cs : List HNode) (i : Nat) (repl : List HNode) : List HNode :=
  cs.take i ++ repl ++ cs.drop (i + 1)

/-- Replace the node at a path by a list of nodes (unwrap/decompose). -/
def spliceAt : HNode → List Nat → List HNode → HNode
  | t, [], _ => t
  | .tag n a cs, [i], repl => .tag n a (spliceList cs i repl)
  | .tag n a cs, i :: p, repl => .tag n a (modList cs i (fun c => spliceAt c p repl))
  | .text s, _, _ => .text s

/-- Rewrite the children list of the node at a path. -/
def modifyChildrenAt : HNode → List Nat → (List HNode → List HNode) → HNode
  | t, [], f => setChildren t (f t.childrenOf)
  | .tag n a cs, i :: p, f => .tag n a (modList cs i (fun c => modifyChildrenAt c p f))
  | .text s, _, _ => .text s

mutual
/-- Bottom-up rewrite: children first, then the node itself may be
kept, replaced, expanded (unwrap) or dropped (decompose). -/
def rewriteBU (f : HNode → List HNode) : HNode → List HNode
  | .text s => f (.text s)
  | .tag n a cs => f (.tag n a (rewriteBUList f cs))

def rewriteBUList (f : HNode → List HNode) : List HNode → List HNode
  | [] => []
  | c :: rest => rewriteBU f c ++ rewriteBUList f rest
end

/-- Apply a bottom-up rewrite below the document root. -/
def rewriteTree (f : HNode → List HNode) (t : HNode) : HNode :=
  setChildren t (rewriteBUList f t.childrenOf)

mutual
/-- Paths of all descendant tags satisfying a predicate, in document
(pre-)order — `soup.find_all(...)` (the root itself is never listed). -/
def findTagPathsNode (pred : HNode → Bool) (base : List Nat) :
    HNode → List (List Nat)
  | .text _ => []
  | .tag n a cs =>
    (if pred (.tag n a cs) then [base] else []) ++
    findTagPathsKids pred base 0 cs

def findTagPathsKids (pred : HNode → Bool) (base : List Nat) :
    Nat → List HNode → List (List Nat)
  | _, [] => []
  | i, c :: rest =>
    findTagPathsNode pred (base ++ [i]) c ++
    findTagPathsKids pred base (i + 1) rest
end

def findTagPaths (pred : HNode → Bool) (t : HNode) : List (List Nat) :=
  findTagPathsKids pred [] 0 t.childrenOf

/-- First descendant tag in document order (`tag.find()`). -/
def firstDescTag (pred : HNode → Bool) (t : HNode) : Option HNode :=
  ((findTagPaths pred t).head?).bind (getPath t)

/-- `tag.find("br")`-style presence tests used by `clear_empty_tags`. -/
def hasBrDesc (t : HNode) : Bool := ¬ (findTagPaths (·.nameOf = "br") t).isEmpty

/-- Whitespace-only text node. -/
def isWsText : HNode → Bool
  | .text s => (pyStripL s.data).isEmpty
  | _ => false

/-- `_get_significant_sibling`: nearest sibling in the given direction
skipping whitespace-only strings and (optionally) `<br>`s.  The input
list is ordered nearest-first. -/
def sigSibling (ignoreBr : Bool) : List HNode → Option HNode
  | [] => none
  | n :: rest =>
    if isWsText n then sigSibling ignoreBr rest
    else if ignoreBr ∧ n.nameOf = "br" then sigSibling ignoreBr rest
    else some n

/-! ### `__init__` stages: `process_images`, `simplify_links` -/

/-- `HtmlProcessor.process_images`: `<img>` becomes a `<p>` holding a
markdown-style placeholder (or the removal notice). -/
def processImages (removeImg : Bool) (t : HNode) : HNode :=
  rewriteTree
    (fun n =>
      match n with
      | .tag "img" attrs _ =>
        if removeImg then [.tag "p" [] [.text "ИЗОБРАЖЕНИЕ УДАЛЕНО"]]
        else
          let src := n.attrD "src"
          let alt := pyStrip (n.attrD "alt")
          let label := if alt.isEmpty then "ИЗОБРАЖЕНИЕ" else "ИЗОБРАЖЕНИЕ " ++ alt
          [.tag "p" [] [.text ("![" ++ label ++ "](" ++ src ++ ")")]]
      | _ => [n])
    t

/-- `HtmlProcessor.simplify_links`: `<a>` becomes plain text, a `<span>`
(email or ordinary link) or a `<p>` (image link). -/
def simplifyLinks (t : HNode) : HNode :=
  rewriteTree
    (fun n =>
      match n with
      | .tag "a" _ _ =>
        let href := pyStrip (n.attrD "href")
        let txt := getTextStrip " " n
        if href.isEmpty then [.text txt]
        else if reTest emailCore txt.data then [.tag "span" [] [.text txt]]
        else
          let content := if txt = href then txt else "[" ++ txt ++ "](" ++ href ++ ") "
          if isSubList "ИЗОБРАЖЕНИЕ".data txt.data then [.tag "p" [] [.text content]]
          else [.tag "span" [] [.text content]]
      | _ => [n])
    t

/-! ### `clear_html` = `clear_system_tags` ∘ `clear_empty_tags` ∘
`clear_attributes` -/

def systemTags : List String :=
  ["html", "body", "head", "doctype", "style", "meta", "title", "script",
   "link", "base"]

/-- `clear_system_tags`: unwrap `html`/`body`, decompose the other
system tags. -/
def clearSystemTags (t : HNode) : HNode :=
  rewriteTree
    (fun n =>
      match n with
      | .tag nm _ cs =>
        if nm = "html" ∨ nm = "body" then cs
        else if systemTags.contains nm then []
        else [n]
      | _ => [n])
    t

/-- `clear_empty_tags`: decompose tags (outside the keep set `{br}`)
with no text and no preserved descendant — emptiness is stable under
removal of empty children, so one bottom-up pass reaches the loop's
fixpoint — then extract whitespace-only strings. -/
def clearEmptyTags (t : HNode) : HNode :=
  let t := rewriteTree
    (fun n =>
      match n with
      | .tag nm _ _ =>
        if nm = "br" then [n]
        else if ((collectStrings n).map pyStrip).all (·.isEmpty) ∧ ¬ hasBrDesc n
        then [] else [n]
      | _ => [n]) t
  rewriteTree (fun n => if isWsText n then [] else [n]) t

/-- Tokens of a `class` attribute (bs4 treats it as multi-valued). -/
def classTokens (s : String) : List (List Char) :=
  (s.data.splitOnP isPySpace).filter (¬ ·.isEmpty)

/-- `clear_attributes`: translate the `mail-quote-collapse` class and
`data-type` markers into the internal marker, drop every other
attribute. -/
def clearAttributes (t : HNode) : HNode :=
  rewriteTree
    (fun n =>
      match n with
      | .tag nm attrs cs =>
        let attrs :=
          if (classTokens (n.attrD "class")).contains "mail-quote-collapse".data
          then setAttr attrs markAttr "quote" else attrs
        let attrs :=
          if n.getAttr "data-type" = some "sender"
          then setAttr attrs markAttr "sender" else attrs
        let attrs :=
          if n.getAttr "data-type" = some "body"
          then setAttr attrs markAttr "body" else attrs
        [.tag nm (attrs.filter (fun a => a.1 = markAttr)) cs]
      | _ => [n])
    t

def blockTags : List String :=
  ["p", "h1", "h2", "h3", "h4", "h5", "h6", "ul", "ol", "li", "dl", "dt",
   "dd", "header", "footer", "nav", "section", "article", "aside", "main",
   "address", "figure", "figcaption", "pre", "form", "fieldset", "center",
   "noscript", "dir", "menu", "details", "summary"]

def tableTags : List String :=
  ["table", "thead", "tbody", "tr", "td", "th", "tfoot", "caption",
   "colgroup", "col"]

/-- `simplify_tags`: reduce the vocabulary to `div`/`span` outside the
keep set. -/
def simplifyTags (t : HNode) : HNode :=
  rewriteTree
    (fun n =>
      match n with
      | .tag nm attrs cs =>
        if tableTags.contains nm ∨ nm = "br" ∨ nm = "div" ∨ nm = "span" ∨
           nm = "blockquote" then [n]
        else if blockTags.contains nm then [.tag "div" attrs cs]
        else [.tag "span" attrs cs]
      | _ => [n])
    t

/-! ### `wrap_orphan_text_nodes` -/

/-- Sequence member: a text node or a `<span>`. -/
def isOrphanMember (n : HNode) : Bool :=
  match n with
  | .text _ => true
  | .tag nm _ _ => nm = "span"

/-- Sequence stopper: `br`, `div` or `blockquote`. -/
def isOrphanStop (n : HNode) : Bool :=
  n.nameOf = "br" || n.nameOf = "div" || n.nameOf = "blockquote"

/-- Collect a maximal candidate run: members in order, the whitespace
strings passed over inside the run, and the remaining siblings. -/
def takeOrphanRun : List HNode → List HNode × List HNode × List HNode
  | [] => ([], [], [])
  | n :: rest =>
    if isWsText n then
      let (ms, ws, rem) := takeOrphanRun rest
      (ms, n :: ws, rem)
    else if isOrphanStop n then ([], [], n :: rest)
    else if isOrphanMember n then
      let (ms, ws, rem) := takeOrphanRun rest
      (n :: ms, ws, rem)
    else ([], [], n :: rest)

/-- One parent's children pass of `wrap_orphan_text_nodes`: runs of
more than one member mixing text and spans are wrapped in a `div` kept
only when an adapter recognizes it as a header (the match is performed
on the detached wrapper, so with no sibling context); otherwise the
members are reinserted contiguously, before the skipped whitespace. -/
def wrapOrphanChildrenAux : Nat → List HNode → List HNode
  | 0, cs => cs
  | _ + 1, [] => []
  | fuel + 1, n :: rest =>
    if isWsText n ∨ isOrphanStop n ∨ ¬ isOrphanMember n then
      n :: wrapOrphanChildrenAux fuel rest
    else
      let (ms, ws, rem) := takeOrphanRun (n :: rest)
      if ms.length > 1 ∧ ms.any (fun m => ¬ m.isTag) ∧
         ms.any (fun m => m.nameOf = "span") then
        let tempDiv : HNode := .tag "div" [] ms
        if (classify ⟨tempDiv, [], []⟩).isSome then
          tempDiv :: ws ++ wrapOrphanChildrenAux fuel rem
        else ms ++ ws ++ wrapOrphanChildrenAux fuel rem
      else ms ++ ws ++ wrapOrphanChildrenAux fuel rem

def wrapOrphanChildren (cs : List HNode) : List HNode :=
  wrapOrphanChildrenAux cs.length cs

mutual
/-- `wrap_orphan_text_nodes`, applied below every tag (the root's own
children are not scanned: `find_all` lists descendants only). -/
def wrapOrphanNode : HNode → HNode
  | .text s => .text s
  | .tag n a cs => .tag n a (wrapOrphanChildren (wrapOrphanList cs))

def wrapOrphanList : List HNode → List HNode
  | [] => []
  | c :: rest => wrapOrphanNode c :: wrapOrphanList rest
end

def wrapOrphanTextNodes (t : HNode) : HNode :=
  setChildren t (wrapOrphanList t.childrenOf)

/-! ### `process_headers` -/

/-- Sibling context of the node at a path: the parent's children and
the node's index. -/
def siblingCtx (t : HNode) (p : List Nat) : Option (List HNode × Nat) :=
  match p.getLast? with
  | none => none
  | some i => (getPath t p.dropLast).map (fun par => (par.childrenOf, i))

/-- Scan forward from an index for the first significant sibling. -/
def sigScan (ignoreBr : Bool) : Nat → List HNode → Option Nat
  | _, [] => none
  | i, n :: rest =>
    if isWsText n ∨ (ignoreBr ∧ n.nameOf = "br") then sigScan ignoreBr (i + 1) rest
    else some i

def sigNextIdx (ignoreBr : Bool) (cs : List HNode) (start : Nat) : Option Nat :=
  sigScan ignoreBr start (cs.drop start)

def sigPrevIdx (ignoreBr : Bool) (cs : List HNode) (i : Nat) : Option Nat :=
  ((List.range i).reverse).find? fun j =>
    match cs.get? j with
    | some n => ¬ (isWsText n ∨ (ignoreBr ∧ n.nameOf = "br"))
    | none => false

/-- `get_depth` in `process_headers`: ancestors for a tag, one more for
a string. -/
def candDepth (t : HNode) (p : List Nat) : Nat :=
  match getPath t p with
  | some (.text _) => p.length + 1
  | _ => p.length

/-- First child of a blockquote considered by the candidate collection
(`br` tags and whitespace strings are passed over). -/
def bqFirstChildIdx (kids : List HNode) : Option Nat :=
  (kids.enum.find? fun pr =>
    match pr.2 with
    | .tag nm _ _ => nm ≠ "br"
    | .text s => ¬ (pyStripL s.data).isEmpty).map (·.1)

/-- Candidate paths contributed by one `hr`. -/
def hrCandidates (t : HNode) (p : List Nat) : List (List Nat) :=
  match siblingCtx t p with
  | some (cs, i) =>
    match sigNextIdx true cs (i + 1) with
    | some j => [p.dropLast ++ [j]]
    | none => []
  | none => []

/-- Candidate paths contributed by one blockquote: its first child,
then its significant elder sibling — or, when it has none and is the
first significant child of a `div`/`span` parent, the parent's
significant elder sibling. -/
def bqCandidates (t : HNode) (p : List Nat) : List (List Nat) :=
  let firstChild :=
    match getPath t p with
    | some bq =>
      match bqFirstChildIdx bq.childrenOf with
      | some j => [p ++ [j]]
      | none => []
    | none => []
  let prevPart :=
    match siblingCtx t p with
    | some (cs, i) =>
      match sigPrevIdx true cs i with
      | some j => [p.dropLast ++ [j]]
      | none =>
        match getPath t p.dropLast with
        | some par =>
          if par.nameOf = "div" ∨ par.nameOf = "span" then
            match bqFirstChildIdx par.childrenOf with
            | some fi =>
              if fi = p.getLast?.getD 0 then
                match siblingCtx t p.dropLast with
                | some (gcs, gi) =>
                  match sigPrevIdx true gcs gi with
                  | some gj => [p.dropLast.dropLast ++ [gj]]
                  | none => []
                | none => []
              else []
            | none => []
          else []
        | none => []
    | none => []
  firstChild ++ prevPart

/-- Keep the first occurrence of each path. -/
def dedupPaths (ps : List (List Nat)) : List (List Nat) :=
  (ps.foldl (fun acc p => if acc.contains p then acc else p :: acc) []).reverse

def insertDescBy (key : List Nat → Nat) (x : List Nat) :
    List (List Nat) → List (List Nat)
  | [] => [x]
  | y :: ys => if key y < key x then x :: y :: ys else y :: insertDescBy key x ys

/-- Stable descending sort (`candidates.sort(key=get_depth, reverse=True)`). -/
def sortDescBy (key : List Nat → Nat) (l : List (List Nat)) :
    List (List Nat) :=
  l.foldr (insertDescBy key) []

/-- Candidate collection of `process_headers`: nodes after `hr`s,
around blockquotes, then every `div`, `p` and `span`; whitespace-only
strings are dropped, duplicates keep their first position, and the
whole list is sorted deepest-first (stably). -/
def collectHeaderCandidates (t : HNode) : List (List Nat) :=
  let hrPart := (findTagPaths (·.nameOf = "hr") t).flatMap (hrCandidates t)
  let bqPart := (findTagPaths (·.nameOf = "blockquote") t).flatMap (bqCandidates t)
  let tagPart := (findTagPaths (·.nameOf = "div") t) ++
    (findTagPaths (·.nameOf = "p") t) ++ (findTagPaths (·.nameOf = "span") t)
  let all := (hrPart ++ bqPart ++ tagPart).filter fun p =>
    match getPath t p with
    | some n => ¬ isWsText n
    | none => false
  sortDescBy (candDepth t) (dedupPaths all)

/-- Index-based variant of the backward scan of
`MultipleDivHeaderAdapter` (nearest first). -/
def mdPrevChainIdx (cs : List HNode) (i : Nat) : List Nat :=
  ((List.range i).reverse.foldl
    (fun (acc : List Nat × Bool) j =>
      if acc.2 then acc
      else
        match cs.get? j with
        | some n =>
          if isWsText n then acc
          else if n.nameOf = "div" ∧ ¬ hasMark n ∧ anyKeyIn (cleanText n).data
          then (j :: acc.1, false) else (acc.1, true)
        | none => (acc.1, true))
    ([], false)).1.reverse

/-- Index-based variant of the forward scan. -/
def mdNextChainIdx (cs : List HNode) (i : Nat) : List Nat :=
  (((List.range cs.length).drop (i + 1)).foldl
    (fun (acc : List Nat × Bool) j =>
      if acc.2 then acc
      else
        match cs.get? j with
        | some n =>
          if isWsText n then acc
          else if n.nameOf = "div" ∧ ¬ hasMark n ∧
               (anyKeyIn (cleanText n).data ∨ mdNextDatetimeLine (cleanText n).data)
          then (acc.1 ++ [j], false) else (acc.1, true)
        | none => (acc.1, true))
    ([], false)).1

/-- `MultipleDivHeaderAdapter.mark`: merge the run into its first
member (whitespace strings inside the run are skipped and survive),
decompose the other members. -/
def markMultiDivAt (t : HNode) (p : List Nat) : HNode :=
  match siblingCtx t p with
  | none => t
  | some (cs, i) =>
    let sibs := (mdPrevChainIdx cs i).reverse ++ mdNextChainIdx cs i
    if sibs.isEmpty then t else
    let firstIdx := ((mdPrevChainIdx cs i).reverse.getLast?).getD i
    -- forward walk from firstIdx: members are the element and the matched
    -- siblings; whitespace strings are skipped; anything else stops
    let allIdx := (((List.range cs.length).drop firstIdx).foldl
      (fun (acc : List Nat × Bool) j =>
        if acc.2 then acc
        else
          match cs.get? j with
          | some n =>
            if j = firstIdx then (acc.1 ++ [j], false)
            else if isWsText n then acc
            else if n.isTag ∧ (j = i ∨ sibs.contains j) then (acc.1 ++ [j], false)
            else (acc.1, true)
          | none => (acc.1, true))
      ([], false)).1
    let texts := allIdx.filterMap (fun j => (cs.get? j).map cleanText)
    let combined := joinSep " " texts
    if combined.isEmpty then t else
    let newCs := (cs.enum.filterMap fun pr =>
      if pr.1 = firstIdx then
        match pr.2 with
        | .tag nm attrs _ =>
          some (.tag nm (setAttr attrs markAttr multiDivAttr) [.text combined])
        | n => some n
      else if allIdx.contains pr.1 then none
      else some pr.2)
    modifyChildrenAt t p.dropLast (fun _ => newCs)

/-- Try the adapters on the candidate at a path and mark the first
match, as the main loop of `process_headers` does. -/
def applyMarkAt (t : HNode) (p : List Nat) : HNode :=
  match getPath t p, siblingCtx t p with
  | some node, some (cs, i) =>
    let cand : Candidate := ⟨node, (cs.take i).reverse, cs.drop (i + 1)⟩
    match classify cand with
    | some av =>
      if av = multiDivAttr then markMultiDivAt t p
      else replaceAt t p (markNode av node)
    | none => t
  | _, _ => t

/-- `HtmlProcessor.process_headers`. -/
def processHeadersStage (t : HNode) : HNode :=
  (collectHeaderCandidates t).foldl applyMarkAt t

/-! ### `unwrap_span` -/

def hasDivDesc (n : HNode) : Bool :=
  ¬ (findTagPaths (·.nameOf = "div") n).isEmpty

/-- Has the span text content or a tag child? -/
def spanHasContent (n : HNode) : Bool :=
  ¬ (getTextStrip "" n).isEmpty || n.childrenOf.any (·.isTag)

/-- Deepest node first, ties resolved to the earliest in document
order (a stable descending sort processes them in that order). -/
def deepestPath (paths : List (List Nat)) : Option (List Nat) :=
  paths.foldl
    (fun acc p =>
      match acc with
      | none => some p
      | some q => if p.length > q.length then some p else some q)
    none

/-- Process one span, deepest first: a span holding a `div` is
unwrapped; a contentless span is decomposed; otherwise its contents are
spliced between single spaces. -/
def unwrapSpanStep (t : HNode) : Option HNode :=
  match deepestPath (findTagPaths (·.nameOf = "span") t) with
  | none => none
  | some p =>
    match getPath t p with
    | some n =>
      if hasDivDesc n then some (spliceAt t p n.childrenOf)
      else if ¬ spanHasContent n then some (spliceAt t p [])
      else some (spliceAt t p ([.text " "] ++ n.childrenOf ++ [.text " "]))
    | none => none

def iterStep (f : HNode → Option HNode) : Nat → HNode → HNode
  | 0, t => t
  | fuel + 1, t =>
    match f t with
    | some t' => iterStep f fuel t'
    | none => t

/-- `HtmlProcessor.unwrap_span`: promote `quote_header` spans to divs,
then eliminate every span bottom-up. -/
def unwrapSpan (t : HNode) : HNode :=
  let t := rewriteTree
    (fun n =>
      match n with
      | .tag "span" attrs cs =>
        if isQuoteHeaderVal (n.attrD markAttr) then [.tag "div" attrs cs] else [n]
      | _ => [n]) t
  iterStep unwrapSpanStep (findTagPaths (·.nameOf = "span") t).length t

/-! ### `process_forwarded_messages` -/

/-- Attempt the forwarded-message promotion at one divider. -/
def pfmApply (t : HNode) (p : List Nat) : Option HNode :=
  match siblingCtx t p with
  | none => none
  | some (cs, i) =>
    match sigNextIdx true cs (i + 1) with
    | none => none
    | some j =>
      match cs.get? j with
      | some nx =>
        if ¬ nx.isTag then none else
        let isHeader : Bool :=
          (nx.attrD markAttr == onelineAttr) ||
          (nx.nameOf == "div" &&
            (match firstDescTag (fun _ => true) nx with
             | some fc => fc.attrD markAttr == onelineAttr
             | none => false))
        if ¬ isHeader then none else
        let after := cs.drop (i + 1)
        let endRel := after.findIdx? fun n =>
          n.isTag ∧ n.attrD markAttr = endDividerAttr
        let content := match endRel with
          | some k => after.take k
          | none => after
        let restAfter := match endRel with
          | some k => after.drop (k + 1)
          | none => []
        some (modifyChildrenAt t p.dropLast
          (fun _ => cs.take i ++ [.tag "blockquote" [] content] ++ restAfter))
      | none => none

def pfmStep (t : HNode) : Option HNode :=
  (findTagPaths (fun n => n.attrD markAttr = dividerAttr) t).findSome?
    (pfmApply t)

/-- `HtmlProcessor.process_forwarded_messages` (each successful
restructure consumes a divider, so the divider count bounds the loop). -/
def processForwardedMessages (t : HNode) : HNode :=
  iterStep pfmStep
    ((findTagPaths (fun n => n.attrD markAttr = dividerAttr) t).length + 1) t

/-! ### `improve_blockquote` -/

mutual
/-- `HtmlProcessor._is_removable_node`. -/
def isRemovableNode : HNode → Bool
  | .text s => (pyStripL s.data).isEmpty
  | .tag nm _ cs =>
    if nm = "br" then true
    else if nm = "div" then isRemovableList cs
    else false

def isRemovableList : List HNode → Bool
  | [] => true
  | c :: rest => isRemovableNode c && isRemovableList rest
end

/-- Are all children other than index `i` removable? -/
def othersRemovable (cs : List HNode) (i : Nat) : Bool :=
  cs.enum.all fun pr => pr.1 = i || isRemovableNode pr.2

/-- The header-unwrapping loop of `improve_blockquote`: climb while the
parent (outside `body`/`html`/`blockquote`) holds nothing but the
header and removable junk.  The soup root is named `[document]`, which
the stop test does not cover, so reaching it attempts `soup.unwrap()` —
bs4 raises `ValueError` for an element with no parent. -/
def ibHeaderClimb : Nat → HNode → List Nat → Except PyErr HNode
  | 0, t, _ => .ok t
  | fuel + 1, t, p =>
    match p.getLast? with
    | none => .ok t
    | some i =>
      let parentPath := p.dropLast
      match getPath t parentPath with
      | none => .ok t
      | some par =>
        if parentPath.isEmpty then
          if othersRemovable par.childrenOf i then .error .valueError
          else .ok t
        else if par.nameOf = "body" ∨ par.nameOf = "html" ∨
                par.nameOf = "blockquote" then .ok t
        else if othersRemovable par.childrenOf i then
          match getPath t p with
          | some header => ibHeaderClimb fuel (spliceAt t parentPath [header]) parentPath
          | none => .ok t
        else .ok t

/-- Iterate a per-header action over the headers in document order,
re-locating the k-th header in the current tree (climbing and
relocation preserve the count and relative order of headers). -/
def forEachHeader (act : HNode → List Nat → Except PyErr HNode) :
    Nat → Nat → HNode → Except PyErr HNode
  | 0, _, t => .ok t
  | fuel + 1, k, t => do
    let hs := findTagPaths isQuoteHeaderNode t
    match hs.get? k with
    | none => pure t
    | some p => do
      let t' ← act t p
      forEachHeader act fuel (k + 1) t'

/-- One step of `_unwrap_quotes`: the first blockquote wrapped in a
`div`/`blockquote` holding nothing else significant loses the wrapper. -/
def uqStep (t : HNode) : Option HNode :=
  (findTagPaths (·.nameOf = "blockquote") t).findSome? fun p =>
    let parentPath := p.dropLast
    if parentPath.isEmpty then none
    else
      match getPath t parentPath, getPath t p, p.getLast? with
      | some par, some bq, some i =>
        if (par.nameOf = "div" ∨ par.nameOf = "blockquote") ∧
           othersRemovable par.childrenOf i then
          some (spliceAt t parentPath [bq])
        else none
      | _, _, _ => none

def tagCount (t : HNode) : Nat := (findTagPaths (fun _ => true) t).length

/-- `HtmlProcessor._unwrap_quotes` (each step removes one wrapper tag). -/
def unwrapQuotes (t : HNode) : HNode :=
  iterStep uqStep (tagCount t + 1) t

/-- Header relocation of `improve_blockquote`: move a header to the
front of the following blockquote when that blockquote does not already
start with a header. -/
def ibRelocateOne (t : HNode) (p : List Nat) : Except PyErr HNode :=
  match siblingCtx t p with
  | none => .ok t
  | some (cs, i) =>
    let nj := ((List.range cs.length).drop (i + 1)).find? fun j =>
      match cs.get? j with
      | some n => ¬ isRemovableNode n
      | none => false
    match nj with
    | none => .ok t
    | some j =>
      match cs.get? j, cs.get? i with
      | some bq, some header =>
        if bq.nameOf ≠ "blockquote" then .ok t else
        let bqKids := bq.childrenOf.filter (fun c => ¬ isWsText c)
        let shouldMove :=
          match bqKids.head? with
          | none => true
          | some fc => ¬ (fc.isTag ∧ isQuoteHeaderVal (fc.attrD markAttr))
        if shouldMove then
          let bq' := setChildren bq (header :: bq.childrenOf)
          let newCs := (cs.set j bq').enum.filterMap fun pr =>
            if pr.1 = i then none else some pr.2
          .ok (modifyChildrenAt t p.dropLast (fun _ => newCs))
        else .ok t
      | _, _ => .ok t

/-- `HtmlProcessor.improve_blockquote`. -/
def improveBlockquote (t : HNode) : Except PyErr HNode := do
  let t := rewriteTree
    (fun n =>
      match n with
      | .tag "div" attrs cs =>
        if n.attrD markAttr = "quote" then
          [.tag "blockquote" (attrs.filter (fun a => a.1 ≠ markAttr)) cs]
        else [n]
      | _ => [n]) t
  let hc := (findTagPaths isQuoteHeaderNode t).length
  let t ← forEachHeader (fun t p => ibHeaderClimb (p.length + 1) t p) (hc + 1) 0 t
  let t := unwrapQuotes t
  let hc := (findTagPaths isQuoteHeaderNode t).length
  let t ← forEachHeader ibRelocateOne (hc + 1) 0 t
  pure (unwrapQuotes t)

/-! ### `unwrap_div` -/

def isStructuralBlock (n : HNode) : Bool :=
  n.isTag &&
  (isQuoteHeaderNode n ||
   (["div", "blockquote", "hr", "center", "form", "header", "footer",
     "ul", "ol"].contains n.nameOf))

mutual
/-- `_ends_with_br` of `unwrap_div` (recurses into a trailing tag). -/
def endsWithBr : HNode → Bool
  | .text _ => false
  | .tag _ _ cs => endsWithBrList cs

def endsWithBrList : List HNode → Bool
  | [] => false
  | [c] =>
    match c with
    | .tag "br" _ _ => true
    | .tag _ _ _ => endsWithBr c
    | .text _ => false
  | _ :: rest => endsWithBrList rest
end

/-- `_starts_with_br` of `unwrap_div` (direct first child only). -/
def startsWithBr (n : HNode) : Bool :=
  match n.childrenOf.head? with
  | some (.tag "br" _ _) => true
  | _ => false

def brNode : HNode := .tag "br" [] []

/-- `_wrap_orphans_in_container` of `unwrap_div`: runs of non-structural
children (leading whitespace outside a run stays put) get wrapped in a
fresh `div`. -/
def udWrapScan (cs : List HNode) (pend : List HNode) :
    List HNode × Bool :=
  match cs with
  | [] => (if pend.isEmpty then [] else [.tag "div" [] pend], ¬ pend.isEmpty)
  | n :: rest =>
    if isStructuralBlock n then
      let (out, ch) := udWrapScan rest []
      ((if pend.isEmpty then [] else [.tag "div" [] pend]) ++ n :: out,
       ch ∨ ¬ pend.isEmpty)
    else if isWsText n ∧ pend.isEmpty then
      let (out, ch) := udWrapScan rest []
      (n :: out, ch)
    else udWrapScan rest (pend ++ [n])

/-- The orphan-wrapping pass over the root and every blockquote
(innermost first, so the positions of the outer containers are stable). -/
def udWrapPass (t : HNode) : HNode × Bool :=
  let (cs, ch) := udWrapScan t.childrenOf []
  let t := setChildren t cs
  ((findTagPaths (·.nameOf = "blockquote") t).reverse.foldl
    (fun acc p =>
      match getPath acc.1 p with
      | some bq =>
        let (cs', ch') := udWrapScan bq.childrenOf []
        (replaceAt acc.1 p (setChildren bq cs'), acc.2 ∨ ch')
      | none => acc)
    (t, ch))

/-- One rewrite of the div phase of `unwrap_div`, applied to the
deepest-first div it fits: flatten a div with structural children,
merge into / absorb the previous sibling, or absorb the next sibling. -/
def udApplyAt (t : HNode) (p : List Nat) : Option HNode :=
  match getPath t p with
  | none => none
  | some node =>
    if isQuoteHeaderNode node then none
    else if node.childrenOf.any isStructuralBlock then
      some (spliceAt t p node.childrenOf)
    else
      match siblingCtx t p with
      | none => none
      | some (cs, i) =>
        let fromPrev :=
          match sigPrevIdx false cs i with
          | some j =>
            match cs.get? j with
            | some prevN =>
              if prevN.nameOf = "div" ∧ ¬ isQuoteHeaderNode prevN then
                let needsBr := ¬ (endsWithBr prevN ∨ startsWithBr node)
                let prev' := setChildren prevN
                  (prevN.childrenOf ++ (if needsBr then [brNode] else []) ++
                   node.childrenOf)
                some (modifyChildrenAt t p.dropLast
                  (fun _ => spliceList (cs.set j prev') i []))
              else if ¬ isQuoteHeaderNode prevN ∧ ¬ isStructuralBlock prevN then
                let isPrevBr := prevN.nameOf = "br"
                let needsBr := ¬ isPrevBr ∧ ¬ startsWithBr node
                let node' := setChildren node
                  ([prevN] ++ (if needsBr then [brNode] else []) ++ node.childrenOf)
                some (modifyChildrenAt t p.dropLast
                  (fun _ => spliceList (cs.set i node') j []))
              else none
            | none => none
          | none => none
        match fromPrev with
        | some t' => some t'
        | none =>
          match sigNextIdx false cs (i + 1) with
          | some j =>
            match cs.get? j with
            | some nx =>
              if ¬ isQuoteHeaderNode nx ∧ ¬ isStructuralBlock nx then
                let isNextBr := nx.nameOf = "br"
                let needsBr := ¬ isNextBr ∧ ¬ endsWithBr node
                let node' := setChildren node
                  (node.childrenOf ++ (if needsBr then [brNode] else []) ++ [nx])
                some (modifyChildrenAt t p.dropLast
                  (fun _ => spliceList (cs.set i node') j []))
              else none
            | none => none
          | none => none

def udDivStep (t : HNode) : Option HNode :=
  (sortDescBy List.length (findTagPaths (·.nameOf = "div") t)).findSome?
    (udApplyAt t)

/-- The `while changed` loop of `unwrap_div` (`MAX_LOOPS = 100`); each
iteration performs the orphan-wrap pass or one div rewrite. -/
def unwrapDivLoop : Nat → HNode → HNode
  | 0, t => t
  | fuel + 1, t =>
    let (t', ch) := udWrapPass t
    if ch then unwrapDivLoop fuel t'
    else
      match udDivStep t' with
      | some t'' => unwrapDivLoop fuel t''
      | none => t'

def unwrapDiv (t : HNode) : HNode := unwrapDivLoop 100 t

/-! ### `ensure_blockquote` -/

/-- Wrap one header and its trailing siblings (up to the next header)
in a blockquote, unless it already leads one. -/
def ebOne (t : HNode) (p : List Nat) : Except PyErr HNode :=
  match siblingCtx t p, getPath t p, getPath t p.dropLast with
  | some (cs, i), some header, some par =>
    let firstIdx := (cs.enum.find? (fun pr => ¬ isWsText pr.2)).map (·.1)
    if par.nameOf = "blockquote" ∧ firstIdx = some i then .ok t
    else
      let after := cs.drop (i + 1)
      let stopRel := after.findIdx? fun n =>
        n.isTag ∧ isQuoteHeaderVal (n.attrD markAttr)
      let taken := match stopRel with
        | some k => after.take k
        | none => after
      let rest := match stopRel with
        | some k => after.drop k
        | none => []
      .ok (modifyChildrenAt t p.dropLast
        (fun _ => cs.take i ++ [.tag "blockquote" [] (header :: taken)] ++ rest))
  | _, _, _ => .ok t

/-- `HtmlProcessor.ensure_blockquote`. -/
def ensureBlockquote (t : HNode) : HNode :=
  let hc := (findTagPaths isQuoteHeaderNode t).length
  match forEachHeader ebOne (hc + 1) 0 t with
  | .ok t' => t'
  | .error _ => t

/-! ### `nest_neighboring_quotes` -/

/-- Nest one quote (and all its younger siblings) into the blockquote
directly before it. -/
def nnqOne (t : HNode) (p : List Nat) : HNode :=
  match siblingCtx t p with
  | none => t
  | some (cs, i) =>
    match sigPrevIdx false cs i with
    | some j =>
      match cs.get? j with
      | some prevN =>
        if prevN.nameOf = "blockquote" then
          let moved := cs.drop i
          let prev' := setChildren prevN (prevN.childrenOf ++ moved)
          modifyChildrenAt t p.dropLast (fun _ => (cs.take i).set j prev')
        else t
      | none => t
    | none => t

/-- Process the quotes in reverse document order, re-locating the k-th
quote each round (nesting preserves the count and relative order). -/
def nnqLoop : Nat → HNode → HNode
  | 0, t => t
  | k + 1, t =>
    let qs := findTagPaths (·.nameOf = "blockquote") t
    nnqLoop k (match qs.get? k with
      | some p => nnqOne t p
      | none => t)

/-- `HtmlProcessor.nest_neighboring_quotes`. -/
def nestNeighboringQuotes (t : HNode) : HNode :=
  nnqLoop (findTagPaths (·.nameOf = "blockquote") t).length t

/-! ### `move_remnants` -/

/-- Does the child list end in a `<br>` (the local helper inside
`move_remnants`)? -/
def endsWithBrLocal (cs : List HNode) : Bool :=
  match cs.getLast? with
  | some (.tag "br" _ _) => true
  | _ => false

/-- Append the remnants into the target div's contents: divs are
spliced open (empty ones dropped), `<br>`s separate the pieces. -/
def mrAppend (tgt : List HNode) : List HNode → List HNode
  | [] => tgt
  | n :: rest =>
    match n with
    | .tag "div" _ dcs =>
      if dcs.isEmpty then mrAppend tgt rest
      else
        let tgt := if ¬ tgt.isEmpty ∧ ¬ endsWithBrLocal tgt
          then tgt ++ [brNode] else tgt
        mrAppend (tgt ++ dcs) rest
    | _ =>
      let isBr := n.nameOf = "br"
      let tgt := if ¬ isBr ∧ ¬ tgt.isEmpty ∧ ¬ endsWithBrLocal tgt
        then tgt ++ [brNode] else tgt
      mrAppend (tgt ++ [n]) rest

/-- The fill step including the loop's initial `<br>` guard. -/
def mrFill (tgtContents : List HNode) (rem : List HNode) : List HNode :=
  if rem.isEmpty then tgtContents
  else
    let tgt := if ¬ tgtContents.isEmpty ∧ ¬ endsWithBrLocal tgtContents
      then tgtContents ++ [brNode] else tgtContents
    mrAppend tgt rem

/-- One level of `move_remnants`: find the first direct blockquote,
move everything after it into the div before it (created when absent)
and return the rebuilt children with the quote's position. -/
def mrLevel (cs : List HNode) : Option (List HNode × Nat) :=
  match cs.findIdx? (fun n => n.nameOf = "blockquote") with
  | none => none
  | some qi =>
    match cs.get? qi with
    | none => none
    | some quote =>
      let pre := cs.take qi
      let rem := cs.drop (qi + 1)
      let tIdx :=
        match sigPrevIdx false cs qi with
        | some j =>
          match cs.get? j with
          | some n => if n.nameOf = "div" ∧ ¬ isQuoteHeaderNode n then some j else none
          | none => none
        | none => none
      match tIdx with
      | some j =>
        match cs.get? j with
        | some tgt =>
          let tgt' := setChildren tgt (mrFill tgt.childrenOf rem)
          some ((pre.set j tgt') ++ [quote], pre.length)
        | none => none
      | none =>
        some (pre ++ [.tag "div" [] (mrFill [] rem), quote], pre.length + 1)

def moveRemnantsAux : Nat → HNode → HNode
  | 0, t => t
  | fuel + 1, t =>
    match mrLevel t.childrenOf with
    | none => t
    | some (newCs, qIdx) =>
      setChildren t (modList newCs qIdx (moveRemnantsAux fuel))

/-- `HtmlProcessor.move_remnants`. -/
def moveRemnants (t : HNode) : HNode :=
  moveRemnantsAux (tagCount t + 1) t

/-! ### `convert_br_to_newlines` -/

/-- Collapse `[ \t\xa0]+` runs to single spaces. -/
def collapseSpacesAux : Bool → List Char → List Char
  | _, [] => []
  | inRun, c :: rest =>
    if c = ' ' ∨ c = '\t' ∨ c = '\xa0' then
      if inRun then collapseSpacesAux true rest
      else ' ' :: collapseSpacesAux true rest
    else c :: collapseSpacesAux false rest

/-- Drop spaces directly after newlines (state: just saw a newline). -/
def dropSpAfterNl : Bool → List Char → List Char
  | _, [] => []
  | dropping, c :: rest =>
    if c = '\n' then '\n' :: dropSpAfterNl true rest
    else if dropping ∧ c = ' ' then dropSpAfterNl true rest
    else c :: dropSpAfterNl false rest

/-- Collapse runs of 2+ newlines to exactly two. -/
def collapseNlsAux : Nat → List Char → List Char
  | _, [] => []
  | k, c :: rest =>
    if c = '\n' then
      if k ≥ 2 then collapseNlsAux k rest
      else '\n' :: collapseNlsAux (k + 1) rest
    else c :: collapseNlsAux 0 rest

/-- The text canonicalization of `convert_br_to_newlines`: soft hyphens
out, horizontal whitespace collapsed, spaces trimmed around newlines,
newline runs capped at two. -/
def cbrCanonText (s : String) : String :=
  let l := s.data.filter (· ≠ '\xad')
  let l := collapseSpacesAux false l
  let l := (dropSpAfterNl false l.reverse).reverse
  let l := dropSpAfterNl false l
  ⟨collapseNlsAux 0 l⟩

/-- Flush a pending buffer as a canonicalized text node (an empty
canonical result is dropped). -/
def cbrFlush (buf : List Char) : List HNode :=
  if buf.isEmpty then []
  else
    let t := cbrCanonText ⟨buf⟩
    if t.isEmpty then [] else [.text t]

/-- Merge a container's children: `<br>` becomes `"\n"`, adjacent
strings concatenate, any other tag flushes the buffer. -/
def cbrChildren (buf : List Char) : List HNode → List HNode
  | [] => cbrFlush buf
  | n :: rest =>
    match n with
    | .tag "br" _ _ => cbrChildren (buf ++ ['\n']) rest
    | .text s => cbrChildren (buf ++ s.data) rest
    | _ => cbrFlush buf ++ n :: cbrChildren [] rest

def cbrContainers : List String := ["div", "blockquote", "p", "li", "td", "th"]

mutual
/-- `HtmlProcessor.convert_br_to_newlines`, top down (the pre-collected
container list is processed parent-first in the source; the child
containers it rewires are processed afterwards, which is this
recursion). -/
def convertBrNode : HNode → HNode
  | .text s => .text s
  | .tag n a cs =>
    let cs' := convertBrList cs
    .tag n a (if cbrContainers.contains n then cbrChildren [] cs' else cs')

def convertBrList : List HNode → List HNode
  | [] => []
  | c :: rest => convertBrNode c :: convertBrList rest
end

def convertBrToNewlines (t : HNode) : HNode :=
  let cs' := convertBrList t.childrenOf
  setChildren t (if cbrContainers.contains t.nameOf
    then cbrChildren [] cs' else cs')

/-! ### The full pipeline -/

/-- `HtmlProcessor` construction plus `process()`: image and link
simplification, then the twelve normalization stages. -/
def htmlProcess (removeImg : Bool) (t : HNode) : Except PyErr HNode := do
  let t := simplifyLinks (processImages removeImg t)
  let t := clearAttributes (clearEmptyTags (clearSystemTags t))
  let t := simplifyTags t
  let t := wrapOrphanTextNodes t
  let t := processHeadersStage t
  let t := unwrapSpan t
  let t := processForwardedMessages t
  let t ← improveBlockquote t
  let t := unwrapDiv t
  let t := ensureBlockquote t
  let t := nestNeighboringQuotes t
  let t := moveRemnants t
  pure (convertBrToNewlines t)

/-- `EmailParser`: the html pipeline followed by the json pipeline. -/
def emailPipeline (removeImg : Bool) (mainContact : Option Contact)
    (t : HNode) : Except PyErr (List Message) := do
  let t' ← htmlProcess removeImg t
  jsonProcess mainContact t'

/-! ## Whitespace canonicalization and text content (for the closure
property)

Two texts agree modulo whitespace canonicalization when they decompose
into the same list of whitespace-free words. -/

def wordsAux (acc : List Char) : List Char → List (List Char)
  | [] => if acc.isEmpty then [] else [acc.reverse]
  | c :: rest =>
    if isPySpace c then
      if acc.isEmpty then wordsAux [] rest
      else acc.reverse :: wordsAux [] rest
    else wordsAux (c :: acc) rest

/-- The whitespace-free words of a string, in order. -/
def wordsOf (s : List Char) : List (List Char) := wordsAux [] s

/-- Whitespace canonicalization: the word list of a string.  Two
strings are equal modulo whitespace canonicalization iff their `canonWs`
agree. -/
def canonWs (s : String) : List (List Char) := wordsOf s.data

/-- The text content of a document: its stripped non-empty strings in
document order, newline-separated
(`soup.get_text(separator="\n", strip=True)`). -/
def docText (t : HNode) : String := getTextStrip "\n" t

/-- The combined text of the emitted records, in order: each record
contributes its header text (when present) and its body text. -/
def combinedText (msgs : List RawMsg) : String :=
  joinSep "\n"
    (msgs.map fun m => (m.header_str.getD "") ++ "\n" ++ m.text)

/-- Is a string free of the characters bs4's minimal formatter escapes
when rendering (`&`, `<`, `>`)? -/
def escFreeStr (s : String) : Bool :=
  s.data.all fun c => c ≠ '&' ∧ c ≠ '<' ∧ c ≠ '>'

def escFreeTree (t : HNode) : Bool := (collectStrings t).all escFreeStr

/-! ### The pipeline's normal form

`HtmlProcessor.process` leaves a tree in which (spec §4.3): every
container holds at most one body `div` of merged text (steps 3, 5, 8,
12), every header marker is the first child of a blockquote (steps 7,
9), quotes are nested (step 10) and no significant content trails a
quote (step 11).  `isNormDoc` captures that normal form: the root holds
an optional body div then blockquotes; a blockquote holds an optional
marked header div, an optional body div, then blockquotes; body and
header divs hold a single text node. -/

/-- A marked single-text header div. -/
def isNormHeaderDiv (n : HNode) : Bool :=
  match n with
  | .tag nm _ [.text _] => nm = "div" && isQuoteHeaderNode n
  | _ => false

/-- An unmarked single-text body div. -/
def isNormBodyDiv (n : HNode) : Bool :=
  match n with
  | .tag nm _ [.text _] => nm = "div" && ¬ isQuoteHeaderNode n
  | _ => false

mutual
/-- A normalized blockquote. -/
def isNormBq : HNode → Bool
  | .tag nm attrs kids => nm = "blockquote" && attrs.isEmpty && normKids 0 kids
  | .text _ => false

/-- Children of a normalized container.  State 0 may start with a
header, state 1 with a body div, state 2 admits only blockquotes. -/
def normKids : Nat → List HNode → Bool
  | _, [] => true
  | st, k :: rest =>
    if st = 0 ∧ isNormHeaderDiv k then normKids 1 rest
    else if st ≤ 1 ∧ isNormBodyDiv k then normKids 2 rest
    else isNormBq k && normKids 2 rest
end

/-- A normalized document root. -/
def isNormDoc : HNode → Bool
  | .tag nm attrs kids => nm = "[document]" && attrs.isEmpty && normKids 1 kids
  | .text _ => false

/-! ## Word-level lemmas about whitespace canonicalization -/

def strWords (s : String) : List (List Char) := wordsOf s.data

/-- Words of the strings of a child list, in document order. -/
def listWords (ks : List HNode) : List (List Char) :=
  (collectStringsList ks).flatMap strWords

/-- Words of the strings of a node, in document order. -/
def nodeWords (n : HNode) : List (List Char) :=
  (collectStrings n).flatMap strWords

/-- Words of the emitted records: header text then body text, record
by record. -/
def msgsWords (msgs : List RawMsg) : List (List Char) :=
  msgs.flatMap fun m => strWords (m.header_str.getD "") ++ strWords m.text

/-! ## Inputs and auxiliary definitions of the claims -/

/-- The sent value of the message at an index, when all layers are
present. -/
def sentAt (ms : List Message) (i : Nat) : Option PyDT :=
  (ms.get? i).bind fun m => m.header.bind Header.sent

/-- The OnelineBlock criteria exactly as the specification words them
(the action-phrase branch needs only the trailing colon), for
comparison with the code's `onelineMatch`. -/
def onelineSpecCriteria (el : HNode) : Bool :=
  if hasMarkedDesc el then false else
  let t := (cleanText el).data
  if t.length < 10 || t.length > 350 then false else
  if countChar '\n' t > 3 then false else
  let tl := pyLower t
  let hasDate := reTest adapterDateRe t
  let hasTime := reTest adapterTimeRe t
  let hasEmail := reTest emailCore t
  let hasKeyword := onelineKeywords.any (fun k => isSubList k.data tl)
  let hasAction := onelineActionPhrases.any (fun k => isSubList k.data tl)
  let endsColon := endsWithChar ':' (pyStripL t)
  (hasAction && endsColon) ||
    (hasDate && hasTime && (hasEmail || hasKeyword && endsColon))

/-- The criteria as the code implements them: the action-phrase branch
additionally requires a date or a time. -/
def onelineCriteriaAmended (el : HNode) : Bool :=
  if hasMarkedDesc el then false else
  let t := (cleanText el).data
  if t.length < 10 || t.length > 350 then false else
  if countChar '\n' t > 3 then false else
  let tl := pyLower t
  let hasDate := reTest adapterDateRe t
  let hasTime := reTest adapterTimeRe t
  let hasEmail := reTest emailCore t
  let hasKeyword := onelineKeywords.any (fun k => isSubList k.data tl)
  let hasAction := onelineActionPhrases.any (fun k => isSubList k.data tl)
  let endsColon := endsWithChar ':' (pyStripL t)
  (hasAction && endsColon && (hasDate || hasTime)) ||
    (hasDate && hasTime && (hasEmail || hasKeyword && endsColon))

/-- A div whose text matches both the key-value and the oneline
criteria. -/
def c5elem : HNode := .tag "div" [] [.text "От: x@y.z Кому: b@c.d 14.05.2024, 17:35:"]

/-- The same div with a key-bearing younger sibling div, as
`process_headers` sees it. -/
def c5ce : Candidate := ⟨c5elem, [], [.tag "div" [] [.text "Тема: hi"]]⟩

/-- Scenario 1's input document. -/
def docHi : HNode := docRoot [.tag "div" [] [.text "Hi there"]]

/-- Two neighboring divs the MultipleDiv adapter merges on the first
normalizer run. -/
def c9Input : HNode :=
  docRoot [.tag "div" [] [.text "14.05.2024, 17:35,"],
           .tag "div" [] [.text "x@y.z:"]]

/-- The first run's output: the two divs merged into one text block
(the merge happens after the header stage, so the div is unmarked). -/
def c9Norm : HNode :=
  docRoot [.tag "div" [] [.text "14.05.2024, 17:35,\nx@y.z:"]]

/-- A normalized document whose body text contains `<`: extraction
renders it through `decode_contents`, which escapes it. -/
def c2bad : HNode := docRoot [.tag "div" [] [.text "a<b"]]

/-- A normalized, escape-free document with a body div and a quote
holding a marked header and a body. -/
def c2good : HNode := docRoot
  [.tag "div" [] [.text "Hello there"],
   .tag "blockquote" []
     [.tag "div" [("simple-email-parse-attr", "quote_header_oneline")]
        [.text "14.05.2024, 17:35, x y:"],
      .tag "div" [] [.text "Old text"]]]

/-- The sent value a boundary message borrows from a neighbor's value
shifted by `delta`: kept on the message's own base date when its
original sent was a date-only value. -/
def borrowedSent (h : Header) (d : PyDT) (delta : Int) : PyDT :=
  match baseDateOf h with
  | some bd => pyCombine bd (pyAdd d delta)
  | none => pyAdd d delta

/-- A timeline whose first message misses its timestamp, whose second
has no header at all, and whose third is known: the nearest known
neighbor of the first message exists, yet reconciliation leaves the
first message's sent absent, because only `messages[1]` is consulted. -/
def c4ce : List Message :=
  [⟨some ⟨⟨none, "a@b.c"⟩, none, none, none⟩, "a"⟩,
   ⟨none, "b"⟩,
   ⟨some ⟨⟨none, "c@d.e"⟩, some ⟨43200, none⟩, none, none⟩, "c"⟩]

/-- Three oldest-first messages: first 10:00 naive, middle missing,
third 14:00 at UTC+0, all of one day. -/
def c3mix : List Message :=
  [⟨some ⟨⟨none, "a@b.c"⟩, some ⟨36000, none⟩, none, none⟩, "a"⟩,
   ⟨some ⟨⟨none, "b@c.d"⟩, none, none, none⟩, "b"⟩,
   ⟨some ⟨⟨none, "c@d.e"⟩, some ⟨50400, some 0⟩, none, none⟩, "c"⟩]

/-! ## Word-level lemmas about whitespace canonicalization (continued) -/

theorem wordsAux_append_ws {d : Char} (hd : isPySpace d = true) (b : List Char) :
    ∀ (a acc : List Char),
      wordsAux acc (a ++ d :: b) = wordsAux acc a ++ wordsAux [] b := by
  intro a
  induction a with
  | nil =>
    intro acc
    simp only [List.nil_append, wordsAux, hd, if_true]
    by_cases h : acc.isEmpty <;> simp [h, wordsAux]
  | cons c a ih =>
    intro acc
    by_cases hc : isPySpace c
    · simp only [List.cons_append, wordsAux, hc, if_true]
      by_cases h : acc.isEmpty <;> simp [h, ih]
    · simp only [List.cons_append, wordsAux, hc, if_false, Bool.false_eq_true]
      exact ih _

theorem wordsOf_append_ws {d : Char} (hd : isPySpace d = true)
    (a b : List Char) : wordsOf (a ++ d :: b) = wordsOf a ++ wordsOf b :=
  wordsAux_append_ws hd b a []

theorem wordsAux_all_ws :
    ∀ (w acc : List Char), (∀ c ∈ w, isPySpace c = true) →
      wordsAux acc w = if acc.isEmpty then [] else [acc.reverse] := by
  intro w
  induction w with
  | nil => intro acc _; simp [wordsAux]
  | cons c w ih =>
    intro acc hw
    have hc : isPySpace c = true := hw c (by simp)
    have hrest : ∀ c ∈ w, isPySpace c = true := fun d hd => hw d (by simp [hd])
    by_cases h : acc.isEmpty <;>
      simp [wordsAux, hc, h, ih [] hrest, ih]

theorem wordsOf_append_all_ws :
    ∀ (a w : List Char), (∀ c ∈ w, isPySpace c = true) →
      wordsOf (a ++ w) = wordsOf a := by
  have aux : ∀ (a w acc : List Char), (∀ c ∈ w, isPySpace c = true) →
      wordsAux acc (a ++ w) = wordsAux acc a := by
    intro a
    induction a with
    | nil =>
      intro w acc hw
      rw [List.nil_append, wordsAux_all_ws w acc hw]
      cases acc <;> simp [wordsAux]
    | cons c a ih =>
      intro w acc hw
      by_cases hc : isPySpace c <;>
        by_cases h : acc.isEmpty <;>
          simp [wordsAux, hc, h, ih w _ hw]
  intro a w hw
  exact aux a w [] hw

theorem wordsOf_ws_append :
    ∀ (w l : List Char), (∀ c ∈ w, isPySpace c = true) →
      wordsOf (w ++ l) = wordsOf l := by
  intro w
  induction w with
  | nil => intro l _; rfl
  | cons c w ih =>
    intro l hw
    have hc : isPySpace c = true := hw c (by simp)
    simp only [List.cons_append, wordsOf, wordsAux, hc, if_true,
      List.isEmpty_nil]
    exact ih l fun d hd => hw d (by simp [hd])

theorem mem_takeWhile_ws {p : Char → Bool} :
    ∀ (l : List Char), ∀ c ∈ l.takeWhile p, p c = true := by
  intro l
  induction l with
  | nil => intro c hc; simp [List.takeWhile] at hc
  | cons a l ih =>
    intro c hc
    by_cases ha : p a
    · simp only [List.takeWhile, ha] at hc
      rcases List.mem_cons.mp hc with h | h
      · exact h ▸ ha
      · exact ih c h
    · simp [List.takeWhile, ha] at hc

theorem wordsOf_pyStripL (s : List Char) :
    wordsOf (pyStripL s) = wordsOf s := by
  unfold pyStripL
  have h1 : s.takeWhile isPySpace ++ s.dropWhile isPySpace = s :=
    List.takeWhile_append_dropWhile isPySpace s
  set m := s.dropWhile isPySpace with hm
  have h2 : (m.reverse.dropWhile isPySpace).reverse ++
      (m.reverse.takeWhile isPySpace).reverse = m := by
    have h := List.takeWhile_append_dropWhile isPySpace m.reverse
    calc (m.reverse.dropWhile isPySpace).reverse ++
        (m.reverse.takeWhile isPySpace).reverse
        = (m.reverse.takeWhile isPySpace ++ m.reverse.dropWhile isPySpace).reverse := by
          rw [List.reverse_append]
      _ = m.reverse.reverse := by rw [h]
      _ = m := List.reverse_reverse m
  calc wordsOf ((m.reverse.dropWhile isPySpace).reverse)
      = wordsOf ((m.reverse.dropWhile isPySpace).reverse ++
          (m.reverse.takeWhile isPySpace).reverse) := by
        rw [wordsOf_append_all_ws]
        intro c hc
        exact mem_takeWhile_ws m.reverse c (List.mem_reverse.mp hc)
    _ = wordsOf m := by rw [h2]
    _ = wordsOf (s.takeWhile isPySpace ++ m) := by
        rw [wordsOf_ws_append]
        intro c hc
        exact mem_takeWhile_ws s c hc
    _ = wordsOf s := by rw [hm, h1]

theorem wordsOf_nil : wordsOf ([] : List Char) = [] := rfl

theorem strWords_empty : strWords "" = [] := rfl

theorem data_mk (l : List Char) : (String.mk l).data = l := rfl

theorem strWords_pyStrip (s : String) :
    strWords (pyStrip s) = strWords s := by
  simp only [strWords, pyStrip, data_mk]
  exact wordsOf_pyStripL s.data

theorem nl_is_ws : isPySpace '\n' = true := rfl

theorem data_append (a b : String) : (a ++ b).data = a.data ++ b.data :=
  String.data_append a b

theorem nlData : "\n".data = ['\n'] := rfl

theorem data_append3 (a b c : String) :
    (a ++ b ++ c).data = a.data ++ (b.data ++ c.data) := by
  rw [data_append, data_append, List.append_assoc]

/-- Words of a newline join are the concatenated words of the parts. -/
theorem canonWs_joinSep :
    ∀ (l : List String), canonWs (joinSep "\n" l) = l.flatMap strWords := by
  intro l
  induction l with
  | nil => rfl
  | cons s rest ih =>
    cases rest with
    | nil => simp [joinSep, canonWs, strWords]
    | cons s2 rest2 =>
      have hd : (s ++ "\n" ++ joinSep "\n" (s2 :: rest2)).data =
          s.data ++ '\n' :: (joinSep "\n" (s2 :: rest2)).data := by
        rw [data_append3, nlData]
        rfl
      show wordsOf (s ++ "\n" ++ joinSep "\n" (s2 :: rest2)).data = _
      rw [hd, wordsOf_append_ws nl_is_ws]
      have ih' : wordsOf (joinSep "\n" (s2 :: rest2)).data =
          (s2 :: rest2).flatMap strWords := ih
      rw [ih']
      simp [strWords]

/-- Stripping and dropping empties does not change the words of a
string list. -/
theorem flatMap_strip_filter :
    ∀ (l : List String),
      (((l.map pyStrip).filter (fun s => s ≠ "")).flatMap strWords) =
      l.flatMap strWords := by
  intro l
  induction l with
  | nil => rfl
  | cons s rest ih =>
    simp only [List.map_cons, List.filter_cons]
    simp only [ne_eq, decide_not] at ih ⊢
    by_cases h : pyStrip s = ""
    · have hw : strWords s = [] := by
        have hsp := strWords_pyStrip s
        rw [h] at hsp
        exact hsp.symm
      simp [h, ih, hw]
    · simp [h, ih, strWords_pyStrip]

/-- The canonical words of `get_text(separator="\n", strip=True)` are
the words of the node's strings. -/
theorem canonWs_docText (t : HNode) : canonWs (docText t) = nodeWords t := by
  simp only [docText, getTextStrip, nodeWords]
  rw [canonWs_joinSep, flatMap_strip_filter]

theorem string_mk_data (s : String) : String.mk s.data = s := by
  cases s
  rfl

theorem append_empty_str (s : String) : s ++ "" = s := by
  apply String.ext
  rw [data_append]
  simp

theorem flatMap_id_of_all {p : Char → Bool} {f : Char → List Char}
    (hf : ∀ c, p c = true → f c = [c]) :
    ∀ l : List Char, l.all p = true → l.flatMap f = l := by
  intro l
  induction l with
  | nil => intro _; rfl
  | cons c l ih =>
    intro hl
    simp only [List.all_cons, Bool.and_eq_true] at hl
    simp [List.flatMap_cons, hf c hl.1, ih hl.2]

/-- Escaping is the identity on escape-free strings. -/
theorem escapeStr_escFree (s : String) (h : escFreeStr s = true) :
    escapeStr s = s := by
  unfold escapeStr
  rw [flatMap_id_of_all (p := fun c => decide (c ≠ '&' ∧ c ≠ '<' ∧ c ≠ '>'))
    (fun c hc => by
      have hc' : c ≠ '&' ∧ c ≠ '<' ∧ c ≠ '>' := by simpa using hc
      simp [hc'.1, hc'.2.1, hc'.2.2])
    s.data h]

/-- The inner markup of a single-text div, escape-free case. -/
theorem decodeContents_textDiv (nm : String) (a : List (String × String))
    (s : String) (h : escFreeStr s = true) :
    decodeContents (.tag nm a [.text s]) = s := by
  show renderList [.text s] = s
  show renderNode (.text s) ++ renderList [] = s
  show escapeStr s ++ "" = s
  rw [escapeStr_escFree s h, append_empty_str]

/-- Words of the header string of a single-text div. -/
theorem getTextStrip_textDiv (sep nm : String) (a : List (String × String))
    (s : String) :
    getTextStrip sep (.tag nm a [.text s]) =
      (if pyStrip s = "" then "" else pyStrip s) := by
  unfold getTextStrip
  have hc : collectStrings (.tag nm a [.text s]) = [s] := rfl
  rw [hc]
  by_cases h : pyStrip s = "" <;> simp [h, joinSep]

theorem strWords_stripped_empty {s : String} (h : pyStrip s = "") :
    strWords s = [] := by
  have hsp := strWords_pyStrip s
  rw [h] at hsp
  exact hsp.symm

/-- Shape inversion for normalized header divs. -/
theorem isNormHeaderDiv_shape {k : HNode} (h : isNormHeaderDiv k = true) :
    ∃ nm a s, k = .tag nm a [.text s] ∧ nm = "div" ∧
      isQuoteHeaderNode k = true := by
  cases k with
  | text s => simp [isNormHeaderDiv] at h
  | tag nm a cs =>
    match cs with
    | [] => simp [isNormHeaderDiv] at h
    | .text s :: [] =>
      simp only [isNormHeaderDiv, Bool.and_eq_true, decide_eq_true_eq] at h
      exact ⟨nm, a, s, rfl, h.1, h.2⟩
    | .text s :: c :: cs' => simp [isNormHeaderDiv] at h
    | .tag _ _ _ :: cs' => simp [isNormHeaderDiv] at h

/-- Shape inversion for normalized body divs. -/
theorem isNormBodyDiv_shape {k : HNode} (h : isNormBodyDiv k = true) :
    ∃ nm a s, k = .tag nm a [.text s] ∧ nm = "div" ∧
      isQuoteHeaderNode k = false := by
  cases k with
  | text s => simp [isNormBodyDiv] at h
  | tag nm a cs =>
    match cs with
    | [] => simp [isNormBodyDiv] at h
    | .text s :: [] =>
      simp only [isNormBodyDiv, Bool.and_eq_true, decide_eq_true_eq] at h
      refine ⟨nm, a, s, rfl, h.1, ?_⟩
      simpa using h.2
    | .text s :: c :: cs' => simp [isNormBodyDiv] at h
    | .tag _ _ _ :: cs' => simp [isNormBodyDiv] at h

/-- Shape inversion for normalized blockquotes. -/
theorem isNormBq_shape {k : HNode} (h : isNormBq k = true) :
    ∃ kids, k = .tag "blockquote" [] kids ∧ normKids 0 kids = true := by
  cases k with
  | text s => simp [isNormBq] at h
  | tag nm a cs =>
    simp only [isNormBq, Bool.and_eq_true, decide_eq_true_eq,
      List.isEmpty_iff] at h
    exact ⟨cs, by rw [h.1.1, h.1.2], h.2⟩

/-- A normalized blockquote carries no marker. -/
theorem isNormBq_not_headerChild {k : HNode} (h : isNormBq k = true) :
    isQuoteHeaderChild k = false := by
  obtain ⟨kids, rfl, _⟩ := isNormBq_shape h
  rfl

theorem isNormBodyDiv_not_headerChild {k : HNode}
    (h : isNormBodyDiv k = true) : isQuoteHeaderChild k = false := by
  obtain ⟨nm, a, s, rfl, _, hq⟩ := isNormBodyDiv_shape h
  simp [isQuoteHeaderChild, HNode.isTag]
  simpa [isQuoteHeaderNode] using hq

theorem isNormHeaderDiv_headerChild {k : HNode}
    (h : isNormHeaderDiv k = true) : isQuoteHeaderChild k = true := by
  obtain ⟨nm, a, s, rfl, _, hq⟩ := isNormHeaderDiv_shape h
  simp [isQuoteHeaderChild, HNode.isTag]
  simpa [isQuoteHeaderNode] using hq

/-- State-1/2 normalized child lists contain no marked child. -/
theorem normKids_no_header :
    ∀ (ks : List HNode) (st : Nat), 1 ≤ st → normKids st ks = true →
      ∀ k ∈ ks, isQuoteHeaderChild k = false := by
  intro ks
  induction ks with
  | nil => intro st _ _ k hk; simp at hk
  | cons k rest ih =>
    intro st hst hn k' hk'
    have hne : ¬ (st = 0 ∧ isNormHeaderDiv k = true) := by
      rintro ⟨h0, _⟩
      omega
    rw [normKids] at hn
    rcases List.mem_cons.mp hk' with rfl | hmem
    · by_cases hb : st ≤ 1 ∧ isNormBodyDiv k' = true
      · exact isNormBodyDiv_not_headerChild hb.2
      · simp only [if_neg hne, if_neg hb, Bool.and_eq_true] at hn
        exact isNormBq_not_headerChild hn.1
    · by_cases hb : st ≤ 1 ∧ isNormBodyDiv k = true
      · simp only [if_neg hne, if_pos hb] at hn
        exact ih 2 (by omega) hn k' hmem
      · simp only [if_neg hne, if_neg hb, Bool.and_eq_true] at hn
        exact ih 2 (by omega) hn.2 k' hmem

theorem headerIdxAux_none :
    ∀ (ks : List HNode) (i : Nat),
      (∀ k ∈ ks, isQuoteHeaderChild k = false) → headerIdxAux i ks = none := by
  intro ks
  induction ks with
  | nil => intro i _; rfl
  | cons k rest ih =>
    intro i h
    have hk : isQuoteHeaderChild k = false := h k (by simp)
    simp only [headerIdxAux, hk, Bool.false_eq_true, if_false]
    exact ih (i + 1) fun k' hk' => h k' (by simp [hk'])

theorem msgsWords_append (a b : List RawMsg) :
    msgsWords (a ++ b) = msgsWords a ++ msgsWords b := by
  simp [msgsWords]

theorem listWords_cons (k : HNode) (rest : List HNode) :
    listWords (k :: rest) = nodeWords k ++ listWords rest := by
  simp [listWords, nodeWords, collectStringsList]

/-- State 0 behaves as state 1 when the head is not a header. -/
theorem normKids_zero_one {k : HNode} {rest : List HNode}
    (hn : normKids 0 (k :: rest) = true) (hh : isNormHeaderDiv k = false) :
    normKids 1 (k :: rest) = true := by
  rw [normKids] at hn ⊢
  have h0 : ¬ (0 = 0 ∧ isNormHeaderDiv k = true) := by simp [hh]
  have h1 : ¬ (1 = 0 ∧ isNormHeaderDiv k = true) := by simp
  rw [if_neg h0] at hn
  rw [if_neg h1]
  by_cases hb : isNormBodyDiv k = true
  · have b0 : (0 ≤ 1 ∧ isNormBodyDiv k = true) := ⟨by omega, hb⟩
    have b1 : (1 ≤ 1 ∧ isNormBodyDiv k = true) := ⟨by omega, hb⟩
    rw [if_pos b0] at hn
    rw [if_pos b1]
    exact hn
  · have b0 : ¬ (0 ≤ 1 ∧ isNormBodyDiv k = true) := by simp [hb]
    have b1 : ¬ (1 ≤ 1 ∧ isNormBodyDiv k = true) := by simp [hb]
    rw [if_neg b0] at hn
    rw [if_neg b1]
    exact hn

/-- State-2 child lists (only blockquotes) contribute no text parts. -/
theorem extractKids_parts_nil :
    ∀ (ks : List HNode) (hIdx : Option Nat) (i : Nat),
      normKids 2 ks = true → (extractKids hIdx i ks).1 = [] := by
  intro ks
  induction ks with
  | nil => intro hIdx i _; rfl
  | cons k rest ih =>
    intro hIdx i hn
    rw [normKids] at hn
    have h2 : ¬ ((2 : Nat) = 0 ∧ isNormHeaderDiv k = true) := by simp
    have h3 : ¬ ((2 : Nat) ≤ 1 ∧ isNormBodyDiv k = true) := by
      rintro ⟨h, _⟩; omega
    rw [if_neg h2, if_neg h3] at hn
    rw [Bool.and_eq_true] at hn
    obtain ⟨kids, rfl, _⟩ := isNormBq_shape hn.1
    rcases hE : extractKids hIdx (i + 1) rest with ⟨ps, ns⟩
    have hps : ps = [] := by
      have := ih hIdx (i + 1) hn.2
      rw [hE] at this
      exact this
    by_cases hsk : hIdx = some i
    · subst hsk
      simp [extractKids, hE, hps]
    · simp [extractKids, hE, hsk, hps]

mutual
/-- Closure of extraction for a normalized blockquote: the words of its
records are the words of its strings. -/
theorem normBq_words : ∀ (b : HNode), isNormBq b = true →
    (collectStrings b).all escFreeStr = true →
    msgsWords (extractNode b) = nodeWords b
  | b, hn, he => by
    obtain ⟨kids, rfl, hk⟩ := isNormBq_shape hn
    have he' : (collectStringsList kids).all escFreeStr = true := he
    cases kids with
    | nil => rfl
    | cons k rest =>
      by_cases hh : isNormHeaderDiv k = true
      · obtain ⟨nm, a, sh, rfl, hnm, hq⟩ := isNormHeaderDiv_shape hh
        rw [normKids, if_pos ⟨rfl, hh⟩] at hk
        have hquote : isQuoteHeaderChild (HNode.tag nm a [.text sh]) = true :=
          isNormHeaderDiv_headerChild hh
        have he2 : (sh :: collectStringsList rest).all escFreeStr = true := he'
        rw [List.all_cons, Bool.and_eq_true] at he2
        have hidx : headerIdxOf (HNode.tag nm a [.text sh] :: rest) = some 0 := by
          simp [headerIdxOf, headerIdxAux, hquote]
        rcases hE : extractKids (some 0) 1 rest with ⟨ps, ns⟩
        have hIH := normKids_words rest 1 (le_refl 1) 1 (some 0)
          (fun j hj => by cases hj; omega) hk he2.2
        rw [hE] at hIH
        have hgoal : extractNode
            (HNode.tag "blockquote" [] (HNode.tag nm a [.text sh] :: rest)) =
            ⟨some (getTextStrip " " (HNode.tag nm a [.text sh])),
              joinSep "\n" ps⟩ :: ns := by
          simp only [extractNode]
          simp [hidx, extractKids, hE]
        rw [hgoal]
        have hhdr : strWords
            (getTextStrip " " (HNode.tag nm a [.text sh])) = strWords sh := by
          rw [getTextStrip_textDiv]
          by_cases hs : pyStrip sh = ""
          · rw [if_pos hs, strWords_empty]
            exact (strWords_stripped_empty hs).symm
          · rw [if_neg hs]
            exact strWords_pyStrip sh
        have hjoin : strWords (joinSep "\n" ps) = ps.flatMap strWords :=
          canonWs_joinSep ps
        have hnode : nodeWords
            (HNode.tag "blockquote" [] (HNode.tag nm a [.text sh] :: rest)) =
            strWords sh ++ listWords rest := by
          simp [nodeWords, listWords, collectStringsList, collectStrings]
        rw [hnode]
        simp only [msgsWords, List.flatMap_cons, Option.getD_some]
        rw [hhdr, hjoin]
        have : msgsWords ns = ns.flatMap
            (fun m => strWords (m.header_str.getD "") ++ strWords m.text) := rfl
        rw [← this, List.append_assoc, hIH]
      · have hh' : isNormHeaderDiv k = false := by
          simpa using hh
        have h1 : normKids 1 (k :: rest) = true := normKids_zero_one hk hh'
        have hnoh : ∀ k' ∈ (k :: rest), isQuoteHeaderChild k' = false :=
          normKids_no_header _ 1 (le_refl 1) h1
        have hidx : headerIdxOf (k :: rest) = none := headerIdxAux_none _ 0 hnoh
        rcases hE : extractKids none 0 (k :: rest) with ⟨ps, ns⟩
        have hIH := normKids_words (k :: rest) 1 (le_refl 1) 0 none
          (fun j hj => by cases hj) h1 he'
        rw [hE] at hIH
        have hgoal : extractNode (HNode.tag "blockquote" [] (k :: rest)) =
            ⟨none, joinSep "\n" ps⟩ :: ns := by
          simp only [extractNode]
          simp [hidx, hE]
        rw [hgoal]
        have hjoin : strWords (joinSep "\n" ps) = ps.flatMap strWords :=
          canonWs_joinSep ps
        have hnode : nodeWords (HNode.tag "blockquote" [] (k :: rest)) =
            listWords (k :: rest) := rfl
        rw [hnode]
        simp only [msgsWords, List.flatMap_cons, Option.getD_none,
          strWords_empty, List.nil_append]
        rw [hjoin]
        have : msgsWords ns = ns.flatMap
            (fun m => strWords (m.header_str.getD "") ++ strWords m.text) := rfl
        rw [← this]
        exact hIH

theorem normKids_words : ∀ (ks : List HNode) (st : Nat), 1 ≤ st →
    ∀ (i : Nat) (hIdx : Option Nat), (∀ j, hIdx = some j → j < i) →
    normKids st ks = true →
    (collectStringsList ks).all escFreeStr = true →
    ((extractKids hIdx i ks).1.flatMap strWords) ++
      msgsWords (extractKids hIdx i ks).2 = listWords ks
  | ks, st, hst, i, hIdx, hv, hn, he => by
    cases ks with
    | nil => rfl
    | cons k rest =>
      have hnotskip : ¬ (hIdx = some i) := fun h => by
        have := hv i h
        omega
      have h0 : ¬ (st = 0 ∧ isNormHeaderDiv k = true) := by
        rintro ⟨h, _⟩
        omega
      rw [normKids, if_neg h0] at hn
      have heck : collectStringsList (k :: rest) =
          collectStrings k ++ collectStringsList rest := rfl
      rw [heck, List.all_append, Bool.and_eq_true] at he
      by_cases hb : st ≤ 1 ∧ isNormBodyDiv k = true
      · rw [if_pos hb] at hn
        obtain ⟨nm, a, sb, rfl, hnm, hq⟩ := isNormBodyDiv_shape hb.2
        rcases hE : extractKids hIdx (i + 1) rest with ⟨ps, ns⟩
        have hps : ps = [] := by
          have hpn := extractKids_parts_nil rest hIdx (i + 1) hn
          rw [hE] at hpn
          exact hpn
        have hIH := normKids_words rest 2 (by omega) (i + 1) hIdx
          (fun j hj => by have := hv j hj; omega) hn he.2
        rw [hE] at hIH
        have hesb : escFreeStr sb = true := by
          have h : ([sb] : List String).all escFreeStr = true := he.1
          simpa using h
        have hdec : decodeContents (HNode.tag nm a [.text sb]) = sb :=
          decodeContents_textDiv _ _ _ hesb
        have hnm' : ¬ (nm = "blockquote") := by
          rw [hnm]
          decide
        have hnodek : nodeWords (HNode.tag nm a [.text sb]) = strWords sb := by
          simp [nodeWords, collectStrings, collectStringsList]
        by_cases hs : pyStrip sb = ""
        · have hkids : extractKids hIdx i (HNode.tag nm a [.text sb] :: rest) =
              (ps, ns) := by
            simp [extractKids, hE, hnotskip, hnm', hdec, hs]
          rw [hkids, listWords_cons, hnodek, strWords_stripped_empty hs]
          simpa using hIH
        · have hkids : extractKids hIdx i (HNode.tag nm a [.text sb] :: rest) =
              (sb :: ps, ns) := by
            simp [extractKids, hE, hnotskip, hnm', hdec, hs]
          rw [hkids, listWords_cons, hnodek]
          simp only [List.flatMap_cons, List.append_assoc]
          rw [hIH]
      · rw [if_neg hb, Bool.and_eq_true] at hn
        have hbqshape := isNormBq_shape hn.1
        obtain ⟨kids', rfl, _⟩ := hbqshape
        rcases hE : extractKids hIdx (i + 1) rest with ⟨ps, ns⟩
        have hps : ps = [] := by
          have hpn := extractKids_parts_nil rest hIdx (i + 1) hn.2
          rw [hE] at hpn
          exact hpn
        have hIH := normKids_words rest 2 (by omega) (i + 1) hIdx
          (fun j hj => by have := hv j hj; omega) hn.2 he.2
        rw [hE] at hIH
        have hBQ := normBq_words (HNode.tag "blockquote" [] kids') hn.1 he.1
        have hkids : extractKids hIdx i
            (HNode.tag "blockquote" [] kids' :: rest) =
            (ps, extractNode (HNode.tag "blockquote" [] kids') ++ ns) := by
          simp [extractKids, hE, hnotskip]
        rw [hkids, hps, listWords_cons]
        rw [hps] at hIH
        simp only [List.flatMap_nil, List.nil_append] at hIH ⊢
        rw [msgsWords_append, hBQ, hIH]
end

/-- Closure at the document root: under escape-free strings, the words
of the emitted records are exactly the words of the tree. -/
theorem normDoc_words : ∀ (t : HNode), isNormDoc t = true →
    escFreeTree t = true →
    msgsWords (extractMessages t) = nodeWords t
  | .tag nm attrs kids, hn, he => by
    rw [isNormDoc, Bool.and_eq_true, Bool.and_eq_true] at hn
    have hnm : nm = "[document]" := by
      simpa using hn.1.1
    have he' : (collectStringsList kids).all escFreeStr = true := he
    rcases hE : extractKids none 0 kids with ⟨ps, ns⟩
    have hIH := normKids_words kids 1 (le_refl 1) 0 none
      (fun j hj => by cases hj) hn.2 he'
    rw [hE] at hIH
    have hnm' : ¬ (nm = "blockquote") := by
      rw [hnm]
      decide
    have hgoal : extractNode (HNode.tag nm attrs kids) =
        ⟨none, joinSep "\n" ps⟩ :: ns := by
      simp only [extractNode]
      simp [hnm', hE]
    rw [extractMessages, hgoal]
    have hjoin : strWords (joinSep "\n" ps) = ps.flatMap strWords :=
      canonWs_joinSep ps
    have hnode : nodeWords (HNode.tag nm attrs kids) = listWords kids := rfl
    rw [hnode]
    simp only [msgsWords, List.flatMap_cons, Option.getD_none,
      strWords_empty, List.nil_append]
    rw [hjoin]
    have hmw : msgsWords ns = ns.flatMap
        (fun m => strWords (m.header_str.getD "") ++ strWords m.text) := rfl
    rw [← hmw]
    exact hIH

/-- The canonical words of the combined record text are the per-record
header and body words. -/
theorem canonWs_combinedText (msgs : List RawMsg) :
    canonWs (combinedText msgs) = msgsWords msgs := by
  simp only [combinedText, msgsWords]
  rw [canonWs_joinSep]
  induction msgs with
  | nil => rfl
  | cons m rest ih =>
    simp only [List.map_cons, List.flatMap_cons, ih]
    congr 1
    have hd : ((m.header_str.getD "") ++ "\n" ++ m.text).data =
        (m.header_str.getD "").data ++ '\n' :: m.text.data := by
      rw [data_append3, nlData]
      rfl
    simp only [strWords]
    rw [hd, wordsOf_append_ws nl_is_ws]

/-! ## The claims -/

mutual
/-- The state-passing extraction returns its input tree unchanged
together with the records of the pure extraction. -/
theorem extractNodeSt_eq : ∀ t : HNode, extractNodeSt t = (t, extractNode t)
  | .text _ => rfl
  | .tag name attrs kids => by
    have hk := extractKidsSt_eq
      (if name = "blockquote" then headerIdxOf kids else none) 0 kids
    rcases hE : extractKids
      (if name = "blockquote" then headerIdxOf kids else none) 0 kids with ⟨ps, ns⟩
    rw [hE] at hk
    simp [extractNodeSt, extractNode, hk, hE]

theorem extractKidsSt_eq : ∀ (hIdx : Option Nat) (i : Nat) (ks : List HNode),
    extractKidsSt hIdx i ks = (ks, extractKids hIdx i ks)
  | _, _, [] => rfl
  | hIdx, i, k :: rest => by
    have hr := extractKidsSt_eq hIdx (i + 1) rest
    rcases hE : extractKids hIdx (i + 1) rest with ⟨ps, ns⟩
    rw [hE] at hr
    by_cases hs : hIdx = some i
    · subst hs
      simp [extractKidsSt, extractKids, hr, hE]
    · match k with
      | .text s =>
        by_cases h2 : pyStrip s = "" <;>
          simp [extractKidsSt, extractKids, hr, hE, hs, h2]
      | .tag nm a cs =>
        by_cases h2 : nm = "blockquote"
        · subst h2
          have hn := extractNodeSt_eq (.tag "blockquote" a cs)
          simp [extractKidsSt, extractKids, hr, hE, hs, hn]
        · by_cases h3 : pyStrip (decodeContents (.tag nm a cs)) = "" <;>
            simp [extractKidsSt, extractKids, hr, hE, hs, h2, h3]
end

/-- C10: message extraction is read-only — the traversal hands back the
tree it was given, its records are those of the pure reading, and
running it again on the returned tree changes nothing. -/
theorem C10_extract_readonly (t : HNode) :
    (extractNodeSt t).1 = t ∧
    (extractNodeSt t).2 = extractMessages t ∧
    extractNodeSt ((extractNodeSt t).1) = extractNodeSt t := by
  rw [extractNodeSt_eq t]
  exact ⟨rfl, rfl, extractNodeSt_eq t⟩

/-- A node whose text ends in an action phrase and a colon but carries
no date and no time: the specification's criteria accept it, the code
rejects it. -/
theorem C6_counterexample :
    onelineSpecCriteria (HNode.text "Hello you wrote:") = true ∧
    onelineMatch (HNode.text "Hello you wrote:") = false := ⟨rfl, rfl⟩

/-- C6: the code's OnelineBlock test coincides with the amended
criteria, whose action-phrase branch also demands a date or a time. -/
theorem C6_oneline_criteria (el : HNode) :
    onelineMatch el = onelineCriteriaAmended el := by
  cases hM : hasMarkedDesc el <;>
  cases hA : onelineActionPhrases.any
      (fun k => isSubList k.data (pyLower (cleanText el).data)) <;>
  cases hC : endsWithChar ':' (pyStripL (cleanText el).data) <;>
  cases hD : reTest adapterDateRe (cleanText el).data <;>
  cases hT : reTest adapterTimeRe (cleanText el).data <;>
  cases hE : reTest emailCore (cleanText el).data <;>
  cases hK : onelineKeywords.any
      (fun k => isSubList k.data (pyLower (cleanText el).data)) <;>
    simp [onelineMatch, onelineCriteriaAmended, hM, hA, hC, hD, hT, hE, hK]

/-- A candidate matching both KeyValueBlock and OnelineBlock that the
classifier marks as a MultipleDiv block, not a KeyValueBlock. -/
theorem C5_counterexample :
    kvMatch c5ce = true ∧ onelineMatch c5ce.elem = true ∧
    classify c5ce = some multiDivAttr ∧ multiDivAttr ≠ kvAttr :=
  ⟨rfl, rfl, rfl, by decide⟩

/-- C5: when a candidate matches both the KeyValueBlock and the
OnelineBlock criteria and none of the three earlier adapters (Divider,
EndDivider, MultipleDiv) matches, classification marks it as a
KeyValueBlock: the adapter order is Divider, EndDivider, MultipleDiv,
KeyValueBlock, OnelineBlock, first match wins. -/
theorem C5_kv_precedence (c : Candidate)
    (hkv : kvMatch c = true) (hol : onelineMatch c.elem = true)
    (hd : dividerMatch c.elem = false) (he : endDividerMatch c.elem = false)
    (hm : multiDivMatch c = false) :
    classify c = some kvAttr := by
  simp [classify, hd, he, hm, hkv]

theorem C5_kv_precedence_witness :
    kvMatch ⟨c5elem, [], []⟩ = true ∧
    classify (⟨c5elem, [], []⟩ : Candidate) = some kvAttr :=
  ⟨rfl, C5_kv_precedence ⟨c5elem, [], []⟩ rfl rfl rfl rfl rfl⟩

/-- C1: a header string whose date matches the `DD.MM.YYYY` pattern with
an out-of-range month makes `datetime.datetime` raise `ValueError`
inside `parse_messages` — parsing does not always return a message. -/
theorem C1_header_parse_raises :
    parseMessages none [⟨some "99.99.2024, 17:35, x@y.z:", "Quoted text"⟩] =
      .error .valueError := rfl

/-- C8: the full pipeline on `<div>Hi there</div>` with no main contact
emits one headerless message with text "Hi there". -/
theorem C8_hi_there :
    emailPipeline false none docHi = .ok [⟨none, "Hi there"⟩] := rfl

/-- C9: the normalizer is not idempotent — on its own output it attempts
to unwrap the soup root and `unwrap()` raises ValueError. -/
theorem C9_not_idempotent :
    htmlProcess false c9Input = .ok c9Norm ∧
    htmlProcess false c9Norm = .error .valueError := ⟨rfl, rfl⟩

/-- On `c2bad` the emitted text is the escaped `a&lt;b`, not the
document text `a<b`: closure fails on escapable characters. -/
theorem C2_counterexample :
    isNormDoc c2bad = true ∧
    canonWs (combinedText (extractMessages c2bad)) ≠ canonWs (docText c2bad) :=
  ⟨by decide, by decide⟩

/-- C2: on a normalized document whose strings are free of the
characters bs4 escapes, the combined header and body text of the
emitted records equals the document text modulo whitespace
canonicalization. -/
theorem C2_extraction_closure (t : HNode)
    (hn : isNormDoc t = true) (he : escFreeTree t = true) :
    canonWs (combinedText (extractMessages t)) = canonWs (docText t) := by
  rw [canonWs_combinedText, canonWs_docText]
  exact normDoc_words t hn he

theorem C2_extraction_closure_witness :
    isNormDoc c2good = true ∧ escFreeTree c2good = true ∧
    canonWs (combinedText (extractMessages c2good)) = canonWs (docText c2good) :=
  ⟨by decide, by decide, C2_extraction_closure c2good (by decide) (by decide)⟩

/-- C7: every sent timestamp in the pipeline's final output carries the
fixed UTC+3 offset; the conversion stamps a naive value unchanged and
shifts an aware one by the difference of offsets. -/
theorem C7_final_msk_offset :
    (∀ (ms : List Message) (m : Message), m ∈ timelineFinalize ms →
      ∀ (h : Header) (d : PyDT), m.header = some h → h.sent = some d →
      d.tz = some MSK) ∧
    (∀ d : PyDT, d.tz = none → convertToMsk d = ⟨d.clock, some MSK⟩) ∧
    (∀ (d : PyDT) (z : Int), d.tz = some z →
      convertToMsk d = ⟨d.clock - z + MSK, some MSK⟩) := by
  refine ⟨?_, ?_, ?_⟩
  · intro ms m hmem h d hh hs
    rw [timelineFinalize] at hmem
    obtain ⟨m0, hm0mem, rfl⟩ := List.mem_map.mp hmem
    cases hm0 : m0.header with
    | none => simp [applyMsk, hm0] at hh
    | some h0 =>
      cases hs0 : h0.sent with
      | none =>
        simp [applyMsk, hm0, hs0] at hh hs
        rw [← hh] at hs
        rw [hs0] at hs
        cases hs
      | some d0 =>
        simp [applyMsk, hm0, hs0] at hh hs
        rw [← hh] at hs
        simp at hs
        rw [← hs]
        cases htz : d0.tz <;> simp [convertToMsk, htz]
  · intro d hd
    simp [convertToMsk, hd]
  · intro d z hd
    simp [convertToMsk, hd]

theorem C7_final_msk_offset_witness :
    (PyDT.mk 100 (some MSK)).tz = some MSK :=
  C7_final_msk_offset.1
    [⟨some ⟨⟨none, "a@b.c"⟩, some ⟨100, none⟩, none, none⟩, "x"⟩]
    ⟨some ⟨⟨none, "a@b.c"⟩, some ⟨100, some MSK⟩, none, none⟩, "x"⟩ (by decide)
    ⟨⟨none, "a@b.c"⟩, some ⟨100, some MSK⟩, none, none⟩ ⟨100, some MSK⟩ rfl rfl

/-- One reconciliation step either leaves the list alone or replaces
the entry at its own index. -/
theorem tsStep_shape (n : Nat) (ms : List Message) (i : Nat) :
    tsStep n ms i = ms ∨ ∃ x, tsStep n ms i = ms.set i x := by
  rw [tsStep]
  repeat' first
  | split
  | dsimp only
  all_goals first
  | exact .inl rfl
  | exact .inr ⟨_, rfl⟩

theorem tsStep_get_ne (n : Nat) (ms : List Message) (i j : Nat) (h : ¬ j = i) :
    (tsStep n ms i).get? j = ms.get? j := by
  rcases tsStep_shape n ms i with h1 | ⟨x, h1⟩
  · rw [h1]
  · rw [h1, List.get?_eq_getElem?, List.get?_eq_getElem?,
      List.getElem?_set_ne (by omega)]

/-- Steps at other indices do not touch index `j`. -/
theorem foldl_tsStep_get_ne (n : Nat) (j : Nat) :
    ∀ (l : List Nat) (ms : List Message), (∀ i ∈ l, ¬ j = i) →
      ((l.foldl (tsStep n) ms)).get? j = ms.get? j := by
  intro l
  induction l with
  | nil => intro ms _; rfl
  | cons a l ih =>
    intro ms h
    rw [List.foldl_cons, ih _ (fun i hi => h i (List.mem_cons_of_mem a hi)),
      tsStep_get_ne n ms a j (h a (List.mem_cons_self a l))]

/-- C4: a boundary message needing a timestamp consults only its
immediate neighbor, not the nearest known one: the first message takes
the second message's known value minus one hour, and the last message
takes its immediate predecessor's known value plus one hour (shown for
a two-message timeline); a date-only original keeps its own date. -/
theorem C4_boundary_neighbor :
    (∀ (ms : List Message) (m0 : Message) (h0 : Header) (d : PyDT),
      ms.get? 0 = some m0 → m0.header = some h0 → needsCalc h0 = true →
      knownSentAt ms 1 = some d →
      (processTimestamps ms).get? 0 =
        some { m0 with header := some { h0 with sent := some (borrowedSent h0 d (-3600)) } }) ∧
    (∀ (m0 m1 : Message) (h0 h1 : Header) (d0 : PyDT),
      m0.header = some h0 → h0.sent = some d0 → knownTime d0 = true →
      m1.header = some h1 → needsCalc h1 = true →
      (processTimestamps [m0, m1]).get? 1 =
        some { m1 with header := some { h1 with sent := some (borrowedSent h1 d0 3600) } }) := by
  constructor
  · intro ms m0 h0 d hg hh hnc hks
    obtain ⟨k, hk⟩ : ∃ k, ms.length = k + 1 := by
      cases hlm : ms with
      | nil => rw [hlm] at hg; cases hg
      | cons a t => exact ⟨t.length, by simp⟩
    rw [processTimestamps, hk, List.range_succ_eq_map, List.foldl_cons]
    rw [foldl_tsStep_get_ne (k + 1) 0 _ _ (by
      intro i hi
      obtain ⟨j, _, rfl⟩ := List.mem_map.mp hi
      simp)]
    have hset : tsStep (k + 1) ms 0 =
        ms.set 0 { m0 with header := some { h0 with sent := some (borrowedSent h0 d (-3600)) } } := by
      have hg' : ms[0]? = some m0 := by
        rw [← List.get?_eq_getElem?]
        exact hg
      cases hbd : baseDateOf h0 <;>
        simp [tsStep, hg', hh, hnc, hks, borrowedSent, hbd]
    rw [hset]
    cases ms with
    | nil => cases hg
    | cons a t =>
      cases hg
      rfl
  · intro m0 m1 h0 h1 d0 hh0 hs0 hk0 hh1 hnc1
    have hnc0 : needsCalc h0 = false := by
      rw [knownTime] at hk0
      rcases Bool.or_eq_true_iff.mp hk0 with h | h <;>
        simp at h <;> simp [needsCalc, hs0, h]
    have hstep0 : tsStep 2 [m0, m1] 0 = [m0, m1] := by
      simp [tsStep, hh0, hnc0]
    have hksa : knownSentAt [m0, m1] 0 = some d0 := by
      simp [knownSentAt, hh0, hs0, hk0]
    have hpt : processTimestamps [m0, m1] = tsStep 2 (tsStep 2 [m0, m1] 0) 1 := rfl
    rw [hpt, hstep0]
    have hset : tsStep 2 [m0, m1] 1 =
        [m0, m1].set 1 { m1 with header := some { h1 with sent := some (borrowedSent h1 d0 3600) } } := by
      cases hbd : baseDateOf h1 <;>
        simp [tsStep, hh1, hnc1, hksa, borrowedSent, hbd]
    rw [hset]
    rfl

theorem C4_counterexample :
    knownSentAt c4ce 2 = some ⟨43200, none⟩ ∧
    sentAt (processTimestamps c4ce) 0 = none := ⟨rfl, rfl⟩

theorem C4_boundary_neighbor_witness :
    (processTimestamps
      [⟨some ⟨⟨none, "a@b.c"⟩, none, none, none⟩, "a"⟩,
       ⟨some ⟨⟨none, "b@c.d"⟩, some ⟨36000, none⟩, none, none⟩, "b"⟩]).get? 0 =
      some ⟨some ⟨⟨none, "a@b.c"⟩, some ⟨32400, none⟩, none, none⟩, "a"⟩ ∧
    (processTimestamps
      [⟨some ⟨⟨none, "b@c.d"⟩, some ⟨36000, none⟩, none, none⟩, "b"⟩,
       ⟨some ⟨⟨none, "a@b.c"⟩, none, none, none⟩, "a"⟩]).get? 1 =
      some ⟨some ⟨⟨none, "a@b.c"⟩, some ⟨39600, none⟩, none, none⟩, "a"⟩ := by
  constructor
  · exact C4_boundary_neighbor.1
      [⟨some ⟨⟨none, "a@b.c"⟩, none, none, none⟩, "a"⟩,
       ⟨some ⟨⟨none, "b@c.d"⟩, some ⟨36000, none⟩, none, none⟩, "b"⟩]
      ⟨some ⟨⟨none, "a@b.c"⟩, none, none, none⟩, "a"⟩
      ⟨⟨none, "a@b.c"⟩, none, none, none⟩ ⟨36000, none⟩ rfl rfl rfl rfl
  · exact C4_boundary_neighbor.2
      ⟨some ⟨⟨none, "b@c.d"⟩, some ⟨36000, none⟩, none, none⟩, "b"⟩
      ⟨some ⟨⟨none, "a@b.c"⟩, none, none, none⟩, "a"⟩
      ⟨⟨none, "b@c.d"⟩, some ⟨36000, none⟩, none, none⟩
      ⟨⟨none, "a@b.c"⟩, none, none, none⟩ ⟨36000, none⟩ rfl rfl (by decide) rfl rfl

/-- C3: in an oldest-first three-message timeline whose middle message
alone needs a timestamp while its neighbors carry known times 10:00 and
14:00 of one day under one offset (both naive or both the same offset),
reconciliation gives the middle message the 12:00 midpoint. -/
theorem C3_interior_midpoint
    (h0 h1 h2 : Header) (t0 t1 t2 : String) (d0 d2 : PyDT)
    (hs0 : h0.sent = some d0) (hs2 : h2.sent = some d2)
    (htz : d0.tz = d2.tz) (hday : d0.dateOf = d2.dateOf)
    (h10 : d0.timeOfDay = 36000) (h14 : d2.timeOfDay = 50400)
    (hm : needsCalc h1 = true) :
    ∃ d : PyDT,
      sentAt (processTimestamps
        [⟨some h0, t0⟩, ⟨some h1, t1⟩, ⟨some h2, t2⟩]) 1 = some d ∧
      d.timeOfDay = 43200 := by
  have e0 : d0.clock % 86400 = 36000 := by
    simpa [PyDT.timeOfDay, secsPerDay] using h10
  have e2 : d2.clock % 86400 = 50400 := by
    simpa [PyDT.timeOfDay, secsPerDay] using h14
  have ed : d0.clock / 86400 = d2.clock / 86400 := by
    simpa [PyDT.dateOf, secsPerDay] using hday
  have hnc0 : needsCalc h0 = false := by simp [needsCalc, hs0, h10]
  have hnc2 : needsCalc h2 = false := by simp [needsCalc, hs2, h14]
  have hk0 : knownTime d0 = true := by simp [knownTime, h10]
  have hk2 : knownTime d2 = true := by simp [knownTime, h14]
  have hksa0 : knownSentAt [⟨some h0, t0⟩, ⟨some h1, t1⟩, ⟨some h2, t2⟩] 0 =
      some d0 := by
    simp [knownSentAt, hs0, hk0]
  have hksa2 : knownSentAt [⟨some h0, t0⟩, ⟨some h1, t1⟩, ⟨some h2, t2⟩] 2 =
      some d2 := by
    simp [knownSentAt, hs2, hk2]
  have hsp : scanPrevKnown [⟨some h0, t0⟩, ⟨some h1, t1⟩, ⟨some h2, t2⟩] 1 =
      some d0 := by
    unfold scanPrevKnown
    rw [show (List.range 1).reverse = [0] from rfl, List.findSome?_cons, hksa0]
  have hsn : scanNextKnown [⟨some h0, t0⟩, ⟨some h1, t1⟩, ⟨some h2, t2⟩] 1 =
      some d2 := by
    unfold scanNextKnown
    rw [show List.drop (1 + 1) (List.range
      ([⟨some h0, t0⟩, ⟨some h1, t1⟩, ⟨some h2, t2⟩] : List Message).length) = [2] from rfl,
      List.findSome?_cons, hksa2]
  have hc1 : ¬ (d0.tz = none ∧ d2.tz ≠ none) := by
    rw [htz]
    tauto
  have hc2 : ¬ (d0.tz ≠ none ∧ d2.tz = none) := by
    rw [htz]
    tauto
  have hsub : pySub d2 d0 = 14400 := by
    rw [pySub, htz]
    cases d2.tz with
    | none => simp; omega
    | some z => simp; omega
  have hstep0 : tsStep 3 [⟨some h0, t0⟩, ⟨some h1, t1⟩, ⟨some h2, t2⟩] 0 =
      [⟨some h0, t0⟩, ⟨some h1, t1⟩, ⟨some h2, t2⟩] := by
    simp [tsStep, hnc0]
  have htod : ∀ bd? : Option Int,
      (match bd? with
        | some bd => pyCombine bd (pyAdd d0 (pySub d2 d0 / 2))
        | none => pyAdd d0 (pySub d2 d0 / 2)).timeOfDay = 43200 := by
    intro bd?
    cases bd? with
    | none =>
      rw [hsub]
      simp only [pyAdd, PyDT.timeOfDay, secsPerDay]
      omega
    | some bd =>
      rw [hsub]
      simp only [pyCombine, pyAdd, PyDT.timeOfDay, secsPerDay]
      omega
  rcases hbd : baseDateOf h1 with _ | bd
  · have hstep1 : tsStep 3 [⟨some h0, t0⟩, ⟨some h1, t1⟩, ⟨some h2, t2⟩] 1 =
        [⟨some h0, t0⟩,
         ⟨some { h1 with sent := some (pyAdd d0 (pySub d2 d0 / 2)) }, t1⟩,
         ⟨some h2, t2⟩] := by
      simp [tsStep, hm, hsp, hsn, hc1, hc2, hbd]
    have hstep2 : tsStep 3
        [⟨some h0, t0⟩,
         ⟨some { h1 with sent := some (pyAdd d0 (pySub d2 d0 / 2)) }, t1⟩,
         ⟨some h2, t2⟩] 2 =
        [⟨some h0, t0⟩,
         ⟨some { h1 with sent := some (pyAdd d0 (pySub d2 d0 / 2)) }, t1⟩,
         ⟨some h2, t2⟩] := by
      simp [tsStep, hnc2]
    refine ⟨pyAdd d0 (pySub d2 d0 / 2), ?_, ?_⟩
    · have hpt : processTimestamps [⟨some h0, t0⟩, ⟨some h1, t1⟩, ⟨some h2, t2⟩] =
          tsStep 3 (tsStep 3 (tsStep 3
            [⟨some h0, t0⟩, ⟨some h1, t1⟩, ⟨some h2, t2⟩] 0) 1) 2 := rfl
      rw [hpt, hstep0, hstep1, hstep2]
      rfl
    · simpa using htod none
  · have hstep1 : tsStep 3 [⟨some h0, t0⟩, ⟨some h1, t1⟩, ⟨some h2, t2⟩] 1 =
        [⟨some h0, t0⟩,
         ⟨some { h1 with sent := some (pyCombine bd (pyAdd d0 (pySub d2 d0 / 2))) }, t1⟩,
         ⟨some h2, t2⟩] := by
      simp [tsStep, hm, hsp, hsn, hc1, hc2, hbd]
    have hstep2 : tsStep 3
        [⟨some h0, t0⟩,
         ⟨some { h1 with sent := some (pyCombine bd (pyAdd d0 (pySub d2 d0 / 2))) }, t1⟩,
         ⟨some h2, t2⟩] 2 =
        [⟨some h0, t0⟩,
         ⟨some { h1 with sent := some (pyCombine bd (pyAdd d0 (pySub d2 d0 / 2))) }, t1⟩,
         ⟨some h2, t2⟩] := by
      simp [tsStep, hnc2]
    refine ⟨pyCombine bd (pyAdd d0 (pySub d2 d0 / 2)), ?_, ?_⟩
    · have hpt : processTimestamps [⟨some h0, t0⟩, ⟨some h1, t1⟩, ⟨some h2, t2⟩] =
          tsStep 3 (tsStep 3 (tsStep 3
            [⟨some h0, t0⟩, ⟨some h1, t1⟩, ⟨some h2, t2⟩] 0) 1) 2 := rfl
      rw [hpt, hstep0, hstep1, hstep2]
      rfl
    · simpa using htod (some bd)

/-- With mixed offsets the naive side is first converted to UTC+3, and
the middle message gets 13:30+03:00 — not the claimed 12:00 midpoint. -/
theorem C3_counterexample :
    sentAt (processTimestamps c3mix) 1 = some ⟨48600, some MSK⟩ ∧
    (PyDT.mk 48600 (some MSK)).timeOfDay ≠ 43200 := ⟨rfl, by decide⟩

theorem C3_interior_midpoint_witness :
    ∃ d : PyDT,
      sentAt (processTimestamps
        [⟨some ⟨⟨none, "a@b.c"⟩, some ⟨36000, none⟩, none, none⟩, "a"⟩,
         ⟨some ⟨⟨none, "b@c.d"⟩, none, none, none⟩, "b"⟩,
         ⟨some ⟨⟨none, "c@d.e"⟩, some ⟨50400, none⟩, none, none⟩, "c"⟩]) 1 =
        some d ∧
      d.timeOfDay = 43200 :=
  C3_interior_midpoint
    ⟨⟨none, "a@b.c"⟩, some ⟨36000, none⟩, none, none⟩
    ⟨⟨none, "b@c.d"⟩, none, none, none⟩
    ⟨⟨none, "c@d.e"⟩, some ⟨50400, none⟩, none, none⟩
    "a" "b" "c" ⟨36000, none⟩ ⟨50400, none⟩
    rfl rfl rfl (by decide) (by decide) (by decide) rfl

end EmailParse
